import Mathlib

/-!
# Account hub: handlers of `main.go` over an explicit store

The service keeps two tables, `Account` and `Metric`, behind three handlers
(`authenticate`, `getAccounts`, `addAccounts`).  The handlers are embedded as
pure functions from the server state (environment secret + store) and the
request to a response and the next server state.

Conventions of the embedding:

* a Go `string` is a Lean `String`; `len` and slicing are taken on its
  character sequence, which agrees with the byte view for the ASCII literal
  the code compares against;
* Go `int` arithmetic is 64-bit two's complement: every `+` of the source goes
  through `wrapInt`;
* a table is the list of its rows in primary-key order together with the
  `AUTOINCREMENT` high-water mark of the key; an insert into `Account` fails
  once no key up to `maxKey` (2^63 - 1) is left for it; functions assume but
  do not require that a store is well formed (`DB.WF`);
* `time.Now()` is the request's `now` (seconds), and the bucket key
  `now.Format("2006-01-02 15:00:00")` is the index of the clock hour.
-/

namespace AccountHub

/-! ## Data model -/

/-- Row of the `Account` table (`type Account struct`). -/
structure Account where
  ID : Nat
  RefreshToken : String
  ClientID : String
  ClientSecret : String
deriving DecidableEq

/-- Row of the `Metric` table (`type Metric struct`). -/
structure Metric where
  ID : Nat
  CurrentCount : Int
  TotalCount : Int
  UsedCount : Int
  APICallCount : Int
  Timestamp : Nat
  Hour : Nat
deriving DecidableEq

/-- The relational store behind the global `db`: both tables in primary-key
order, each with the largest key ever handed out. -/
structure DB where
  accounts : List Account
  accountSeq : Nat
  metrics : List Metric
  metricSeq : Nat
deriving DecidableEq

/-- Process state a handler can observe: the `PASSKEY` environment variable
(empty when unset) and the store. -/
structure Server where
  PASSKEY : String
  db : DB
deriving DecidableEq

/-- JSON bodies the handlers write. -/
inductive Body where
  | error (msg : String)
  | insufficient (available : Int) (requested : Int)
  | token (tok : String)
  | accounts (rows : List Account)
  | message (msg : String)
deriving DecidableEq

/-- Result of `c.JSON(status, body)`. -/
structure Response where
  status : Nat
  body : Body
deriving DecidableEq

/-! ## Go primitives -/

/-- Two's-complement reduction of a mathematical integer to Go's 64-bit `int`. -/
def wrapInt (x : Int) : Int :=
  (x + 9223372036854775808) % 18446744073709551616 - 9223372036854775808

/-- Values representable in Go's 64-bit `int`. -/
def InRange (x : Int) : Prop :=
  -9223372036854775808 ≤ x ∧ x < 9223372036854775808

instance (x : Int) : Decidable (InRange x) := by
  unfold InRange; infer_instance

/-- Value of a decimal digit, `none` for any other character. -/
def digitVal (c : Char) : Option Nat :=
  if 48 ≤ c.toNat ∧ c.toNat ≤ 57 then some (c.toNat - 48) else none

/-- Accumulate a run of decimal digits; `none` as soon as a non-digit shows up. -/
def parseDigits : List Char → Nat → Option Nat
  | [], acc => some acc
  | c :: cs, acc =>
    match digitVal c with
    | none => none
    | some d => parseDigits cs (acc * 10 + d)

/-- Unsigned part of `strconv.Atoi`: at least one digit, digits only. -/
def parseMagnitude (cs : List Char) : Option Nat :=
  if cs = [] then none else parseDigits cs 0

/-- Embedding of `strconv.Atoi` for a 64-bit `int`: an optional sign, then one
or more decimal digits, and a range error outside `[-2^63, 2^63 - 1]`. -/
def Atoi (s : String) : Option Int :=
  match s.data with
  | [] => none
  | c :: cs =>
    if c = '-' then
      match parseMagnitude cs with
      | none => none
      | some n => if n ≤ 9223372036854775808 then some (-(n : Int)) else none
    else if c = '+' then
      match parseMagnitude cs with
      | none => none
      | some n => if n < 9223372036854775808 then some (n : Int) else none
    else
      match parseMagnitude (c :: cs) with
      | none => none
      | some n => if n < 9223372036854775808 then some (n : Int) else none

/-- Go slice `s[:n]`. -/
def slicePrefix (s : String) (n : Nat) : String :=
  ⟨s.data.take n⟩

/-- Bucket key of an instant: `now.Format("2006-01-02 15:00:00")`. -/
def formatHour (now : Nat) : Nat :=
  now / 3600

/-! ## Storage layer -/

/-- Put a row at its place in primary-key order. -/
def insertRow (a : Account) : List Account → List Account
  | [] => [a]
  | b :: rest => if a.ID < b.ID then a :: b :: rest else b :: insertRow a rest

/-- Largest primary key of a table: SQLite row ids are signed 64-bit. -/
def maxKey : Nat :=
  9223372036854775807

/-- Primary key of a row being created.  A zero `ID` is filled in by
`AUTOINCREMENT` with one more than the largest key ever used, and there is no
key left once that is `maxKey` (the insert fails, `SQLITE_FULL`).  A non-zero
`ID` is kept as given, and refused when it does not fit a signed 64-bit
integer.  `none` stands for the failed insert. -/
def assignKey (seq : Nat) (id : Nat) : Option Nat :=
  if id = 0 then
    if seq < maxKey then some (seq + 1) else none
  else if id ≤ maxKey then some id
  else none

/-- Embedding of `db.Create(&account)`.  The insert fails, leaving the table
alone, when there is no key for the row, on a primary-key clash, or when
`client_id` hits the unique index.  The flag is `Error == nil`. -/
def createAccount (db : DB) (a : Account) : DB × Bool :=
  match assignKey db.accountSeq a.ID with
  | none => (db, false)
  | some id =>
    if db.accounts.any (fun b => decide (b.ID = id ∨ b.ClientID = a.ClientID)) then
      (db, false)
    else
      ({ db with
          accounts := insertRow { a with ID := id } db.accounts
          accountSeq := max db.accountSeq id }, true)

/-- Embedding of `db.Delete(&account)`: delete by primary key; with a zero key
there is no condition and the statement is refused. -/
def deleteAccount (db : DB) (a : Account) : DB :=
  if a.ID = 0 then db
  else { db with accounts := db.accounts.filter (fun b => decide (b.ID ≠ a.ID)) }

/-- Embedding of `db.Model(&Account{}).Count(&n)` followed by `int(n)`. -/
def countAccounts (db : DB) : Int :=
  (db.accounts.length : Int)

/-- The zero-valued `Metric` a failed `First` leaves in place. -/
def zeroMetric : Metric :=
  { ID := 0, CurrentCount := 0, TotalCount := 0, UsedCount := 0,
    APICallCount := 0, Timestamp := 0, Hour := 0 }

/-- Embedding of `db.Order("id desc").First(&lastMetric)`: the row with the
greatest key, the zero value when the table is empty. -/
def lastMetric (db : DB) : Metric :=
  match db.metrics.getLast? with
  | some m => m
  | none => zeroMetric

/-- Embedding of `db.Where("hour = ?", hour).First(&hourMetric)`: the row of
that hour with the smallest key; `none` stands for a non-nil `Error`. -/
def hourMetric (db : DB) (hour : Nat) : Option Metric :=
  db.metrics.find? (fun m => decide (m.Hour = hour))

/-- Embedding of `db.Create(&Metric{...})`; the literal carries no `ID`, so
the key comes from `AUTOINCREMENT` and the row goes last. -/
def createMetric (db : DB) (m : Metric) : DB :=
  { db with
      metrics := db.metrics ++ [{ m with ID := db.metricSeq + 1 }]
      metricSeq := db.metricSeq + 1 }

/-- Embedding of `db.Save(&hourMetric)`: with a key, overwrite every column of
the row holding that key; without one, insert. -/
def saveMetric (db : DB) (m : Metric) : DB :=
  if m.ID = 0 then createMetric db m
  else { db with metrics := db.metrics.map (fun r => if r.ID = m.ID then m else r) }

/-! ## Handlers -/

/-- Embedding of `authenticate`.  `input` is the bound `passkey` field, `none`
when `BindJSON` fails. -/
def authenticate (s : Server) (input : Option String) : Response :=
  match input with
  | none => ⟨400, .error "invalid request"⟩
  | some passkey =>
    if passkey = "" then ⟨400, .error "passkey required"⟩
    else
      let envPasskey := s.PASSKEY
      if envPasskey = "" then ⟨500, .error "server configuration error"⟩
      else if passkey = envPasskey then ⟨200, .token passkey⟩
      else ⟨401, .error "invalid passkey"⟩

/-- The metric upsert that closes the consume branch of `getAccounts` (from
`var lastMetric Metric` to the end of the branch), run on the store as the
delete loop left it. -/
def recordConsume (db : DB) (now : Nat) (count : Int) : DB :=
  let last := lastMetric db
  let current := countAccounts db
  let hour := formatHour now
  match hourMetric db hour with
  | some hm =>
    saveMetric db
      { hm with
          CurrentCount := current
          TotalCount := last.TotalCount
          UsedCount := wrapInt (last.UsedCount + count)
          APICallCount := wrapInt (last.APICallCount + 1)
          Timestamp := now }
  | none =>
    createMetric db
      { ID := 0
        CurrentCount := current
        TotalCount := last.TotalCount
        UsedCount := wrapInt (last.UsedCount + count)
        APICallCount := wrapInt (last.APICallCount + 1)
        Timestamp := now
        Hour := hour }

/-- Embedding of `getAccounts`.  `auth` is the `Authorization` header (empty
when absent) and `countQuery` the `count` query parameter when present. -/
def getAccounts (s : Server) (now : Nat) (auth : String) (countQuery : Option String) :
    Response × Server :=
  if auth = "" ∨ auth.length < 7 ∨ slicePrefix auth 7 ≠ "Bearer " then
    (⟨401, .error "unauthorized"⟩, s)
  else
    let countStr := countQuery.getD "0"
    match Atoi countStr with
    | none => (⟨400, .error "invalid count parameter"⟩, s)
    | some count =>
      if count < 0 then (⟨400, .error "invalid count parameter"⟩, s)
      else if count > 0 then
        let total := countAccounts s.db
        if total < count then (⟨400, .insufficient total count⟩, s)
        else
          let accounts := s.db.accounts.take count.toNat
          let db1 := accounts.foldl deleteAccount s.db
          (⟨200, .accounts accounts⟩, { s with db := recordConsume db1 now count })
      else
        (⟨200, .accounts s.db.accounts⟩, s)

/-- The insert loop of `addAccounts`: every payload is tried, `added` counts
the inserts that returned no error. -/
def addLoop (db : DB) (added : Int) : List Account → DB × Int
  | [] => (db, added)
  | a :: rest =>
    match createAccount db a with
    | (db1, true) => addLoop db1 (wrapInt (added + 1)) rest
    | (db1, false) => addLoop db1 added rest

/-- Embedding of `addAccounts`.  `input` is the bound `accounts` array, or the
text of the error when `BindJSON` fails.  The seed row is read before the
inserts. -/
def addAccounts (s : Server) (now : Nat) (input : Except String (List Account)) :
    Response × Server :=
  match input with
  | .error err => (⟨400, .error err⟩, s)
  | .ok payloads =>
    let last := lastMetric s.db
    let (db1, added) := addLoop s.db 0 payloads
    let current := countAccounts db1
    let hour := formatHour now
    let db2 :=
      match hourMetric db1 hour with
      | some hm =>
        saveMetric db1
          { hm with
              CurrentCount := current
              TotalCount := wrapInt (last.TotalCount + added)
              Timestamp := now }
      | none =>
        createMetric db1
          { ID := 0
            CurrentCount := current
            TotalCount := wrapInt (last.TotalCount + added)
            UsedCount := last.UsedCount
            APICallCount := last.APICallCount
            Timestamp := now
            Hour := hour }
    (⟨200, .message "accounts added"⟩, { s with db := db2 })

/-! ## Runs of requests -/

/-- A request to one of the two handlers that work on the store. -/
inductive Request where
  | get (now : Nat) (auth : String) (countQuery : Option String)
  | add (now : Nat) (input : Except String (List Account))

/-- Clock reading at which the request is served. -/
def Request.now : Request → Nat
  | .get now _ _ => now
  | .add now _ => now

/-- Number of account payloads the request carries. -/
def Request.payloads : Request → Nat
  | .get _ _ _ => 0
  | .add _ (.ok ps) => ps.length
  | .add _ (.error _) => 0

/-- Route a request to its handler. -/
def handle (s : Server) : Request → Response × Server
  | .get now auth countQuery => getAccounts s now auth countQuery
  | .add now input => addAccounts s now input

/-- Serve the requests one after the other. -/
def run (s : Server) (rs : List Request) : Server :=
  rs.foldl (fun st r => (handle st r).2) s

/-- The hour keys of the requests never go backwards: each request's key is at
most the key of every later request. -/
def HoursMonotone (rs : List Request) : Prop :=
  (rs.map (fun r => formatHour r.now)).Pairwise (· ≤ ·)

instance (rs : List Request) : Decidable (HoursMonotone rs) := by
  unfold HoursMonotone; infer_instance

/-- Number of account payloads submitted over a run. -/
def totalPayloads (rs : List Request) : Nat :=
  (rs.map Request.payloads).sum

/-! ## Well-formed stores -/

/-- Schema constraints of the store: keys are positive, strictly increasing
along each table and bounded by the high-water mark; `client_id` is unique. -/
def DB.WF (db : DB) : Prop :=
  (db.accounts.map Account.ID).Pairwise (· < ·) ∧
  (∀ a ∈ db.accounts, 0 < a.ID ∧ a.ID ≤ db.accountSeq) ∧
  (db.accounts.map Account.ClientID).Nodup ∧
  (db.metrics.map Metric.ID).Pairwise (· < ·) ∧
  (∀ m ∈ db.metrics, 0 < m.ID ∧ m.ID ≤ db.metricSeq)

instance (db : DB) : Decidable db.WF := by
  unfold DB.WF; infer_instance

/-- The store right after `AutoMigrate` on a fresh file. -/
def emptyDB : DB :=
  { accounts := [], accountSeq := 0, metrics := [], metricSeq := 0 }

/-- Invariant of the store along a run whose hour keys never go backwards:
the store is well formed, hours grow strictly along the `Metric` table and stay
at or below `hour`, a store without metrics has no accounts, and the last row
balances: `current_count = total_count - used_count = ` size of the pool, with
`used_count` non-negative and `total_count` at most `bound`. -/
def RunInv (db : DB) (hour : Nat) (bound : Int) : Prop :=
  db.WF ∧
  (db.metrics.map Metric.Hour).Pairwise (· < ·) ∧
  (∀ m ∈ db.metrics, m.Hour ≤ hour) ∧
  (db.metrics = [] → db.accounts = []) ∧
  (∀ m, db.metrics.getLast? = some m →
    m.CurrentCount = (db.accounts.length : Int) ∧
    m.TotalCount - m.UsedCount = (db.accounts.length : Int) ∧
    0 ≤ m.UsedCount ∧ m.TotalCount ≤ bound)

/-! ## Sample data -/

/-- Two payloads without keys that share one `client_id`. -/
def twinPayloads : List Account :=
  [⟨0, "refresh-1", "client-a", "secret-1"⟩, ⟨0, "refresh-2", "client-a", "secret-2"⟩]

/-- Two payloads with distinct `client_id`s that both ask for key 5. -/
def sharedKeyPayloads : List Account :=
  [⟨5, "refresh-1", "client-a", "secret-1"⟩, ⟨5, "refresh-2", "client-b", "secret-2"⟩]

/-- A server as one add of a single account carrying the largest key leaves
it: no key is left for `AUTOINCREMENT`. -/
def lastKeyServer : Server :=
  ⟨"hunter2",
   { accounts := [⟨9223372036854775807, "refresh-0", "client-a", "secret-0"⟩],
     accountSeq := 9223372036854775807,
     metrics := [⟨1, 1, 1, 0, 0, 0, 0⟩], metricSeq := 1 }⟩

/-- Two payloads without keys and with distinct, new `client_id`s. -/
def freshPayloads : List Account :=
  [⟨0, "refresh-1", "client-b", "secret-1"⟩, ⟨0, "refresh-2", "client-c", "secret-2"⟩]

/-- A server holding one account and no metrics. -/
def oneAccountServer : Server :=
  ⟨"hunter2", { accounts := [⟨1, "refresh-0", "client-a", "secret-0"⟩], accountSeq := 1,
                metrics := [], metricSeq := 0 }⟩

/-- Three payloads without keys; the first repeats the stored `client_id`. -/
def mixedPayloads : List Account :=
  [⟨0, "refresh-1", "client-a", "secret-1"⟩, ⟨0, "refresh-2", "client-b", "secret-2"⟩,
   ⟨0, "refresh-3", "client-c", "secret-3"⟩]

/-- A server as one add of a single account in hour 0 leaves it. -/
def hourZeroServer : Server :=
  ⟨"hunter2", { accounts := [⟨1, "refresh-0", "client-a", "secret-0"⟩], accountSeq := 1,
                metrics := [⟨1, 1, 1, 0, 0, 0, 0⟩], metricSeq := 1 }⟩

/-- A server whose clock went back: one account was added in hour 5, an empty
batch in hour 6, and two more accounts in hour 5 again. -/
def skewedServer : Server :=
  ⟨"hunter2",
   { accounts := [⟨1, "refresh-1", "client-a", "secret-1"⟩,
                  ⟨2, "refresh-2", "client-b", "secret-2"⟩,
                  ⟨3, "refresh-3", "client-c", "secret-3"⟩],
     accountSeq := 3,
     metrics := [⟨1, 3, 3, 0, 0, 18060, 5⟩, ⟨2, 1, 1, 0, 0, 21600, 6⟩],
     metricSeq := 2 }⟩

/-- A run over two hours: add two accounts, consume one, add a third in the
next hour, and a request without a bearer header. -/
def sampleRun : List Request :=
  [.add 100 (.ok [⟨0, "refresh-1", "client-a", "secret-1"⟩,
                  ⟨0, "refresh-2", "client-b", "secret-2"⟩]),
   .get 200 "Bearer x" (some "1"),
   .add 4000 (.ok [⟨0, "refresh-3", "client-c", "secret-3"⟩]),
   .get 4100 "" none]

/-! ## Quantities the claims speak about -/

/-- Number of payloads whose `client_id` equals that of an already stored
account. -/
def duplicatesAgainst (db : DB) (payloads : List Account) : Nat :=
  (payloads.filter
    (fun p => decide (p.ClientID ∈ db.accounts.map Account.ClientID))).length

/-! ## Properties of the `Metric` table -/

/-- At most one `Metric` row per distinct `hour` value. -/
def OneRowPerHour (db : DB) : Prop :=
  (db.metrics.map Metric.Hour).Nodup

instance (db : DB) : Decidable (OneRowPerHour db) := by
  unfold OneRowPerHour; infer_instance

/-- The bucket of `hour` is in order: the hour column holds `hour` exactly
once, the row of that hour records the current size of the pool, and no hour
has two rows. -/
def BucketOK (db : DB) (hour : Nat) : Prop :=
  (db.metrics.map Metric.Hour).count hour = 1 ∧
  (∀ m ∈ db.metrics, m.Hour = hour → m.CurrentCount = (db.accounts.length : Int)) ∧
  OneRowPerHour db

instance (db : DB) (hour : Nat) : Decidable (BucketOK db hour) := by
  unfold BucketOK; infer_instance


/-! ## Go primitives: basic facts -/

theorem wrapInt_of_inRange {x : Int} (h : InRange x) : wrapInt x = x := by
  unfold InRange at h
  unfold wrapInt
  omega

theorem bearer_guard_iff (auth : String) :
    (auth = "" ∨ auth.length < 7 ∨ slicePrefix auth 7 ≠ "Bearer ") ↔
      ¬ ∃ tok : String, auth = "Bearer " ++ tok := by
  constructor
  · rintro h ⟨tok, rfl⟩
    rcases h with h | h | h
    · have := congrArg String.length h
      simp only [String.length_append] at this
      have h7 : "Bearer ".length = 7 := by decide
      have h0 : "".length = 0 := by decide
      omega
    · simp [String.length_append] at h
      have : "Bearer ".length = 7 := by decide
      omega
    · apply h
      apply String.ext
      simp [slicePrefix, String.data_append]
  · intro h
    by_contra hc
    push_neg at hc
    obtain ⟨_, _, h3⟩ := hc
    apply h
    refine ⟨⟨auth.data.drop 7⟩, ?_⟩
    apply String.ext
    rw [String.data_append, ← h3]
    simp [slicePrefix]

theorem bearer_guard_accepts (tok : String) :
    ¬ ("Bearer " ++ tok = "" ∨ ("Bearer " ++ tok).length < 7 ∨
      slicePrefix ("Bearer " ++ tok) 7 ≠ "Bearer ") := by
  rw [bearer_guard_iff]
  exact fun h => h ⟨tok, rfl⟩

/-! ## Storage layer: the `Account` table -/

theorem insertRow_perm (a : Account) (l : List Account) :
    (insertRow a l).Perm (a :: l) := by
  induction l with
  | nil => simp [insertRow]
  | cons b rest ih =>
    unfold insertRow
    split_ifs with h
    · exact List.Perm.refl _
    · exact (List.Perm.cons b ih).trans (List.Perm.swap a b rest)

theorem insertRow_length (a : Account) (l : List Account) :
    (insertRow a l).length = l.length + 1 := by
  simpa using (insertRow_perm a l).length_eq

theorem mem_insertRow {a x : Account} {l : List Account} :
    x ∈ insertRow a l ↔ x = a ∨ x ∈ l := by
  rw [(insertRow_perm a l).mem_iff]; simp

theorem insertRow_sorted (a : Account) (l : List Account)
    (hs : (l.map Account.ID).Pairwise (· < ·)) (hn : ∀ b ∈ l, b.ID ≠ a.ID) :
    ((insertRow a l).map Account.ID).Pairwise (· < ·) := by
  induction l with
  | nil => simp [insertRow]
  | cons b rest ih =>
    simp only [List.map_cons, List.pairwise_cons, List.mem_map, forall_exists_index,
      and_imp, forall_apply_eq_imp_iff₂] at hs
    obtain ⟨hb, hrest⟩ := hs
    unfold insertRow
    split_ifs with h
    · simp only [List.map_cons, List.pairwise_cons, List.mem_cons, List.mem_map,
        forall_eq_or_imp, forall_exists_index, and_imp, forall_apply_eq_imp_iff₂]
      exact ⟨⟨h, fun x hx => lt_trans h (hb x hx)⟩, hb, hrest⟩
    · have hne : b.ID ≠ a.ID := hn b (List.mem_cons_self _ _)
      have hlt : b.ID < a.ID := by omega
      simp only [List.map_cons, List.pairwise_cons, List.mem_map, forall_exists_index,
        and_imp, forall_apply_eq_imp_iff₂]
      refine ⟨?_, ih hrest (fun x hx => hn x (List.mem_cons_of_mem _ hx))⟩
      intro x hx
      rcases mem_insertRow.mp hx with rfl | hx
      · exact hlt
      · exact hb x hx

theorem assignKey_some {seq id k : Nat} (h : assignKey seq id = some k) :
    0 < k ∧ k ≤ maxKey ∧ (id = 0 → k = seq + 1) ∧ (id ≠ 0 → k = id) := by
  unfold assignKey at h
  split_ifs at h with h0 h1 h2
  · cases h
    exact ⟨by omega, by omega, fun _ => rfl, fun hne => absurd h0 hne⟩
  · cases h
    exact ⟨by omega, h2, fun h3 => absurd h3 h0, fun _ => rfl⟩

theorem assignKey_auto {seq : Nat} (h : seq < maxKey) : assignKey seq 0 = some (seq + 1) := by
  simp [assignKey, h]

/-- The two ways an insert ends: refused with the store untouched, or one row
stored under the assigned key. -/
theorem createAccount_cases (db : DB) (a : Account) :
    createAccount db a = (db, false) ∨
    ∃ id : Nat, assignKey db.accountSeq a.ID = some id ∧
      (∀ b ∈ db.accounts, b.ID ≠ id ∧ b.ClientID ≠ a.ClientID) ∧
      createAccount db a =
        ({ db with
            accounts := insertRow { a with ID := id } db.accounts
            accountSeq := max db.accountSeq id }, true) := by
  unfold createAccount
  cases hk : assignKey db.accountSeq a.ID with
  | none => exact Or.inl rfl
  | some id =>
    simp only
    split_ifs with h
    · exact Or.inl rfl
    · simp only [List.any_eq_true, decide_eq_true_eq, not_exists, not_and, not_or] at h
      exact Or.inr ⟨id, rfl, h, rfl⟩

theorem createAccount_metrics (db : DB) (a : Account) :
    (createAccount db a).1.metrics = db.metrics ∧
      (createAccount db a).1.metricSeq = db.metricSeq := by
  rcases createAccount_cases db a with h | ⟨id, _, _, h⟩ <;> rw [h] <;> exact ⟨rfl, rfl⟩

/-- An insert either fails and leaves the table alone or adds exactly one row. -/
theorem createAccount_length (db : DB) (a : Account) :
    (createAccount db a).1.accounts.length =
      db.accounts.length + (if (createAccount db a).2 then 1 else 0) := by
  rcases createAccount_cases db a with h | ⟨id, _, _, h⟩ <;> rw [h] <;>
    simp [insertRow_length]

theorem createAccount_fail (db : DB) (a : Account) (h : (createAccount db a).2 = false) :
    (createAccount db a).1 = db := by
  rcases createAccount_cases db a with h2 | ⟨id, _, _, h2⟩
  · rw [h2]
  · rw [h2] at h
    simp at h

/-- While keys are left, a payload without a key is inserted exactly when its
`client_id` is new. -/
theorem createAccount_ok_iff (db : DB) (a : Account) (hwf : db.WF) (hid : a.ID = 0)
    (hroom : db.accountSeq < maxKey) :
    (createAccount db a).2 = true ↔ a.ClientID ∉ db.accounts.map Account.ClientID := by
  obtain ⟨_, hb, _⟩ := hwf
  have hkey : assignKey db.accountSeq a.ID = some (db.accountSeq + 1) := by
    rw [hid]
    exact assignKey_auto hroom
  unfold createAccount
  rw [hkey]
  simp only
  split_ifs with h
  · simp only [List.any_eq_true, decide_eq_true_eq] at h
    obtain ⟨b, hbm, hb2⟩ := h
    rcases hb2 with h1 | h1
    · have := (hb b hbm).2
      omega
    · simp only [List.mem_map, not_exists, not_and, false_iff, not_forall, not_not]
      exact ⟨b, hbm, h1⟩
  · simp only [List.any_eq_true, decide_eq_true_eq, not_exists, not_and, not_or] at h
    simp only [List.mem_map, not_exists, not_and, true_iff]
    exact fun b hbm => (h b hbm).2

/-- A successful insert of a payload without a key takes the next key. -/
theorem createAccount_seq (db : DB) (a : Account) (hid : a.ID = 0)
    (h : (createAccount db a).2 = true) :
    (createAccount db a).1.accountSeq = db.accountSeq + 1 := by
  rcases createAccount_cases db a with h2 | ⟨id, hk, _, h2⟩
  · rw [h2] at h
    simp at h
  · rw [h2]
    have := (assignKey_some hk).2.2.1 hid
    simp only [this]
    omega

theorem createAccount_clientIDs (db : DB) (a : Account) (h : (createAccount db a).2 = true)
    (c : String) :
    c ∈ (createAccount db a).1.accounts.map Account.ClientID ↔
      c = a.ClientID ∨ c ∈ db.accounts.map Account.ClientID := by
  rcases createAccount_cases db a with h2 | ⟨id, _, _, h2⟩
  · rw [h2] at h
    simp at h
  rw [h2]
  simp only [List.mem_map, mem_insertRow]
  constructor
  · rintro ⟨x, rfl | hx, rfl⟩
    · exact Or.inl rfl
    · exact Or.inr ⟨x, hx, rfl⟩
  · rintro (rfl | ⟨x, hx, rfl⟩)
    · exact ⟨_, Or.inl rfl, rfl⟩
    · exact ⟨x, Or.inr hx, rfl⟩

theorem createAccount_wf (db : DB) (a : Account) (hwf : db.WF) :
    (createAccount db a).1.WF := by
  rcases createAccount_cases db a with h2 | ⟨id, hk, h, h2⟩
  · rw [h2]
    exact hwf
  obtain ⟨hs, hb, hc, hm, hmb⟩ := hwf
  rw [h2]
  refine ⟨?_, ?_, ?_, hm, hmb⟩
  · exact insertRow_sorted _ _ hs (fun b hbm => (h b hbm).1)
  · intro x hx
    rcases mem_insertRow.mp hx with rfl | hx
    · have := (assignKey_some hk).1
      simp only
      omega
    · have := hb x hx
      simp only
      omega
  · have hp := (insertRow_perm { a with ID := id } db.accounts).map Account.ClientID
    simp only
    rw [hp.nodup_iff]
    simp only [List.map_cons, List.nodup_cons, List.mem_map, not_exists, not_and]
    exact ⟨fun b hbm hEq => (h b hbm).2 hEq, hc⟩

theorem deleteAccount_wf (db : DB) (a : Account) (hwf : db.WF) :
    (deleteAccount db a).WF := by
  obtain ⟨hs, hb, hc, hm, hmb⟩ := hwf
  unfold deleteAccount
  split_ifs with h
  · exact ⟨hs, hb, hc, hm, hmb⟩
  · refine ⟨?_, ?_, ?_, hm, hmb⟩
    · exact hs.sublist ((List.filter_sublist _).map _)
    · intro x hx
      exact hb x (List.mem_of_mem_filter hx)
    · exact hc.sublist ((List.filter_sublist _).map _)

/-- The delete loop of `getAccounts` on a well-formed table: reading the first
`n` rows and deleting each by key leaves exactly the rows after them. -/
theorem foldl_deleteAccount_take (l : List Account) :
    ∀ (n : Nat) (db : DB), db.accounts = l → (l.map Account.ID).Pairwise (· < ·) →
      (∀ a ∈ l, 0 < a.ID) →
      (l.take n).foldl deleteAccount db = { db with accounts := l.drop n } := by
  induction l with
  | nil =>
    intro n db h _ _
    cases db
    simp_all
  | cons a rest ih =>
    intro n db h hs hpos
    cases n with
    | zero =>
      cases db
      simp_all
    | succ n =>
      simp only [List.map_cons, List.pairwise_cons, List.mem_map, forall_exists_index,
        and_imp, forall_apply_eq_imp_iff₂] at hs
      obtain ⟨ha, hrest⟩ := hs
      have h0 : a.ID ≠ 0 := by
        have := hpos a (List.mem_cons_self _ _)
        omega
      have hstep : deleteAccount db a = { db with accounts := rest } := by
        unfold deleteAccount
        rw [if_neg h0, h]
        congr 1
        rw [List.filter_cons_of_neg (by simp)]
        rw [List.filter_eq_self]
        intro x hx
        have := ha x hx
        simp only [ne_eq, decide_not, Bool.not_eq_eq_eq_not, Bool.not_true,
          decide_eq_false_iff_not]
        omega
      simp only [List.take_succ_cons, List.foldl_cons, List.drop_succ_cons, hstep]
      rw [ih n { db with accounts := rest } rfl hrest
        (fun x hx => hpos x (List.mem_cons_of_mem _ hx))]

/-! ## Metric upsert: the `Account` table is untouched -/

theorem createMetric_accounts (db : DB) (m : Metric) :
    (createMetric db m).accounts = db.accounts ∧
      (createMetric db m).accountSeq = db.accountSeq := by
  simp [createMetric]

theorem saveMetric_accounts (db : DB) (m : Metric) :
    (saveMetric db m).accounts = db.accounts ∧
      (saveMetric db m).accountSeq = db.accountSeq := by
  unfold saveMetric
  split_ifs
  · exact createMetric_accounts db m
  · simp

theorem recordConsume_accounts (db : DB) (now : Nat) (count : Int) :
    (recordConsume db now count).accounts = db.accounts ∧
      (recordConsume db now count).accountSeq = db.accountSeq := by
  unfold recordConsume
  simp only
  split
  · exact saveMetric_accounts _ _
  · exact createMetric_accounts _ _

/-! ## `getAccounts`: the three paths behind the bearer gate -/

theorem getAccounts_unauthorized (s : Server) (now : Nat) (auth : String)
    (countQuery : Option String) (h : ¬ ∃ tok : String, auth = "Bearer " ++ tok) :
    getAccounts s now auth countQuery = (⟨401, .error "unauthorized"⟩, s) := by
  unfold getAccounts
  rw [if_pos ((bearer_guard_iff auth).mpr h)]

theorem getAccounts_insufficient (s : Server) (now : Nat) (tok : String)
    (countQuery : Option String) (count : Int)
    (hparse : Atoi (countQuery.getD "0") = some count)
    (hlt : (s.db.accounts.length : Int) < count) :
    getAccounts s now ("Bearer " ++ tok) countQuery =
      (⟨400, .insufficient s.db.accounts.length count⟩, s) := by
  unfold getAccounts
  rw [if_neg (bearer_guard_accepts tok)]
  have h0 : ¬ count < 0 := by omega
  have h1 : count > 0 := by omega
  simp only [hparse, h0, h1, if_true, if_false, countAccounts, hlt]

theorem getAccounts_consume_eq (s : Server) (now : Nat) (tok : String)
    (countQuery : Option String) (count : Int)
    (hparse : Atoi (countQuery.getD "0") = some count) (hpos : 0 < count)
    (hle : count ≤ (s.db.accounts.length : Int)) :
    getAccounts s now ("Bearer " ++ tok) countQuery =
      (⟨200, .accounts (s.db.accounts.take count.toNat)⟩,
        ⟨s.PASSKEY, recordConsume
          ((s.db.accounts.take count.toNat).foldl deleteAccount s.db) now count⟩) := by
  unfold getAccounts
  rw [if_neg (bearer_guard_accepts tok)]
  have h0 : ¬ count < 0 := by omega
  have h1 : count > 0 := by omega
  have h2 : ¬ (s.db.accounts.length : Int) < count := by omega
  simp only [hparse, h0, h1, if_true, if_false, countAccounts, h2]

theorem getAccounts_list_eq (s : Server) (now : Nat) (tok : String)
    (countQuery : Option String) (hparse : Atoi (countQuery.getD "0") = some 0) :
    getAccounts s now ("Bearer " ++ tok) countQuery =
      (⟨200, .accounts s.db.accounts⟩, s) := by
  unfold getAccounts
  rw [if_neg (bearer_guard_accepts tok)]
  simp only [hparse, lt_self_iff_false, gt_iff_lt, if_false]

/-- On a well-formed store the delete loop removes exactly the rows it read. -/
theorem consume_delete_eq (db : DB) (n : Nat) (hwf : db.WF) :
    (db.accounts.take n).foldl deleteAccount db = { db with accounts := db.accounts.drop n } :=
  foldl_deleteAccount_take db.accounts n db rfl hwf.1 (fun a ha => (hwf.2.1 a ha).1)

/-! ## Claims on authentication and the bearer gate -/

/-- C3: for every supplied passkey `p` and configured secret `s.PASSKEY`,
`authenticate` answers 200 exactly when `p` is non-empty, the secret is
non-empty and `p` equals the secret, and the token it returns is then `p`; an
empty `p` gives 400, a non-empty `p` without a configured secret gives 500, and
a non-empty `p` different from a configured secret gives 401. -/
theorem authenticate_outcomes (s : Server) (p : String) :
    ((authenticate s (some p)).status = 200 ↔ p ≠ "" ∧ s.PASSKEY ≠ "" ∧ p = s.PASSKEY) ∧
    ((authenticate s (some p)).status = 200 → (authenticate s (some p)).body = .token p) ∧
    (p = "" → (authenticate s (some p)).status = 400) ∧
    (p ≠ "" → s.PASSKEY = "" → (authenticate s (some p)).status = 500) ∧
    (p ≠ "" → s.PASSKEY ≠ "" → p ≠ s.PASSKEY → (authenticate s (some p)).status = 401) := by
  unfold authenticate
  simp only
  by_cases hp : p = ""
  · simp [hp]
  · by_cases hs : s.PASSKEY = ""
    · simp [hp, hs]
    · by_cases he : p = s.PASSKEY
      · simp [hp, hs, he]
      · simp [hp, hs, he]

/-- C3 (witness): one request for each of the four outcomes. -/
theorem authenticate_outcomes_witness :
    (authenticate ⟨"hunter2", emptyDB⟩ (some "hunter2")).status = 200 ∧
    (authenticate ⟨"hunter2", emptyDB⟩ (some "hunter2")).body = .token "hunter2" ∧
    (authenticate ⟨"hunter2", emptyDB⟩ (some "")).status = 400 ∧
    (authenticate ⟨"", emptyDB⟩ (some "hunter2")).status = 500 ∧
    (authenticate ⟨"hunter2", emptyDB⟩ (some "hunter3")).status = 401 :=
  ⟨(authenticate_outcomes ⟨"hunter2", emptyDB⟩ "hunter2").1.mpr (by decide),
   (authenticate_outcomes ⟨"hunter2", emptyDB⟩ "hunter2").2.1
     ((authenticate_outcomes ⟨"hunter2", emptyDB⟩ "hunter2").1.mpr (by decide)),
   (authenticate_outcomes ⟨"hunter2", emptyDB⟩ "").2.2.1 (by decide),
   (authenticate_outcomes ⟨"", emptyDB⟩ "hunter2").2.2.2.1 (by decide) (by decide),
   (authenticate_outcomes ⟨"hunter2", emptyDB⟩ "hunter3").2.2.2.2 (by decide) (by decide)
     (by decide)⟩

/-- C4: `getAccounts` answers 401 exactly when the `Authorization` header is
absent (empty) or does not start with the seven characters `Bearer `; the
token after the prefix is never compared with the configured passkey, so any
two tokens (and any two configured secrets) give the same response and the
same store afterwards. -/
theorem getAccounts_bearer_gate (s : Server) (now : Nat) (auth : String)
    (countQuery : Option String) :
    ((getAccounts s now auth countQuery).1.status = 401 ↔
      ¬ ∃ tok : String, auth = "Bearer " ++ tok) ∧
    (∀ (tok tok2 secret2 : String),
      (getAccounts s now ("Bearer " ++ tok) countQuery).1 =
        (getAccounts ⟨secret2, s.db⟩ now ("Bearer " ++ tok2) countQuery).1 ∧
      (getAccounts s now ("Bearer " ++ tok) countQuery).2.db =
        (getAccounts ⟨secret2, s.db⟩ now ("Bearer " ++ tok2) countQuery).2.db) := by
  constructor
  · rw [← bearer_guard_iff]
    unfold getAccounts
    split_ifs with hg
    · simp [hg]
    · simp only [hg, iff_false]
      split
      · simp
      · split_ifs <;> simp
  · intro tok tok2 secret2
    unfold getAccounts
    rw [if_neg (bearer_guard_accepts tok), if_neg (bearer_guard_accepts tok2)]
    simp only
    split
    · simp
    · split_ifs <;> simp

/-! ## Claims on listing and consuming -/

/-- C1: on a well-formed pool of `M` accounts, a request with an accepted
bearer header and a `count` parameter parsing to `count > 0` is answered 400
with `available = M` and `requested = count` when `count > M`, and otherwise
200 with exactly `count` accounts, leaving `M - count` accounts in the pool. -/
theorem getAccounts_count_contract (s : Server) (now : Nat) (tok countStr : String) (count : Int)
    (hwf : s.db.WF) (hparse : Atoi countStr = some count) (hpos : 0 < count) :
    ((s.db.accounts.length : Int) < count →
      (getAccounts s now ("Bearer " ++ tok) (some countStr)).1 =
        ⟨400, .insufficient s.db.accounts.length count⟩) ∧
    (count ≤ (s.db.accounts.length : Int) →
      ∃ rows : List Account,
        (getAccounts s now ("Bearer " ++ tok) (some countStr)).1 = ⟨200, .accounts rows⟩ ∧
        (rows.length : Int) = count ∧
        ((getAccounts s now ("Bearer " ++ tok) (some countStr)).2.db.accounts.length : Int) =
          (s.db.accounts.length : Int) - count) := by
  constructor
  · intro hlt
    rw [getAccounts_insufficient s now tok (some countStr) count hparse hlt]
  · intro hle
    rw [getAccounts_consume_eq s now tok (some countStr) count hparse hpos hle]
    refine ⟨s.db.accounts.take count.toNat, rfl, ?_, ?_⟩
    · rw [List.length_take]
      omega
    · simp only [(recordConsume_accounts _ _ _).1, consume_delete_eq s.db _ hwf,
        List.length_drop]
      omega

/-- C1 (witness): a pool of three accounts asked for five and for two. -/
theorem getAccounts_count_contract_witness :
    skewedServer.db.WF ∧ Atoi "5" = some 5 ∧ Atoi "2" = some 2 ∧
    (getAccounts skewedServer 0 ("Bearer " ++ "t") (some "5")).1 =
      ⟨400, .insufficient 3 5⟩ ∧
    (∃ rows : List Account,
      (getAccounts skewedServer 0 ("Bearer " ++ "t") (some "2")).1 = ⟨200, .accounts rows⟩ ∧
      (rows.length : Int) = 2 ∧
      ((getAccounts skewedServer 0 ("Bearer " ++ "t") (some "2")).2.db.accounts.length : Int) =
        3 - 2) :=
  ⟨by decide, by decide, by decide,
   (getAccounts_count_contract skewedServer 0 "t" "5" 5 (by decide) (by decide)
      (by decide)).1 (by decide),
   (getAccounts_count_contract skewedServer 0 "t" "2" 2 (by decide) (by decide)
      (by decide)).2 (by decide)⟩

/-- C5: with an accepted bearer header, `getAccounts` without a `count`
parameter, or with one that parses to 0, returns every stored account and
leaves the whole server state (both tables) as it was. -/
theorem getAccounts_zero_readonly (s : Server) (now : Nat) (tok : String) :
    getAccounts s now ("Bearer " ++ tok) none = (⟨200, .accounts s.db.accounts⟩, s) ∧
    (∀ countStr : String, Atoi countStr = some 0 →
      getAccounts s now ("Bearer " ++ tok) (some countStr) =
        (⟨200, .accounts s.db.accounts⟩, s)) :=
  ⟨getAccounts_list_eq s now tok none (by decide),
   fun countStr h => getAccounts_list_eq s now tok (some countStr) h⟩

/-- C5 (witness): `count=0` on a pool of three accounts. -/
theorem getAccounts_zero_readonly_witness :
    Atoi "0" = some 0 ∧
    getAccounts skewedServer 0 ("Bearer " ++ "t") (some "0") =
      (⟨200, .accounts skewedServer.db.accounts⟩, skewedServer) :=
  ⟨by decide, (getAccounts_zero_readonly skewedServer 0 "t").2 "0" (by decide)⟩

/-! ## Storage layer: the `Metric` table -/

theorem hourMetric_some {db : DB} {hour : Nat} {hm : Metric}
    (h : hourMetric db hour = some hm) : hm ∈ db.metrics ∧ hm.Hour = hour := by
  unfold hourMetric at h
  refine ⟨List.mem_of_find?_eq_some h, ?_⟩
  simpa using List.find?_some h

theorem hourMetric_none {db : DB} {hour : Nat} (h : hourMetric db hour = none) :
    ∀ m ∈ db.metrics, m.Hour ≠ hour := by
  unfold hourMetric at h
  simpa using h

/-- Keys determine rows in a table sorted by key. -/
theorem metric_eq_of_id {l : List Metric} (hs : (l.map Metric.ID).Pairwise (· < ·))
    {x y : Metric} (hx : x ∈ l) (hy : y ∈ l) (h : x.ID = y.ID) : x = y := by
  have hn : (l.map Metric.ID).Nodup := hs.imp (fun h => Nat.ne_of_lt h)
  exact List.inj_on_of_nodup_map hn hx hy h

theorem saveMetric_eq (db : DB) (m : Metric) (h : 0 < m.ID) :
    saveMetric db m =
      { db with metrics := db.metrics.map (fun r => if r.ID = m.ID then m else r) } := by
  unfold saveMetric
  rw [if_neg (by omega)]

/-- Overwriting the row just read keeps the key and hour columns as they were. -/
theorem saveMetric_columns (db : DB) (hm m : Metric) (hwf : db.WF) (hmem : hm ∈ db.metrics)
    (hid : m.ID = hm.ID) (hh : m.Hour = hm.Hour) :
    (saveMetric db m).metrics.map Metric.ID = db.metrics.map Metric.ID ∧
    (saveMetric db m).metrics.map Metric.Hour = db.metrics.map Metric.Hour ∧
    (saveMetric db m).metricSeq = db.metricSeq := by
  have hpos : 0 < m.ID := by
    have := (hwf.2.2.2.2 hm hmem).1
    omega
  rw [saveMetric_eq db m hpos]
  simp only [List.map_map, and_true]
  constructor
  · apply List.map_congr_left
    intro r _
    simp only [Function.comp]
    split_ifs with h
    · exact h.symm
    · rfl
  · apply List.map_congr_left
    intro r hr
    simp only [Function.comp]
    split_ifs with h
    · have : r = hm := metric_eq_of_id hwf.2.2.2.1 hr hmem (h.trans hid)
      rw [this, hh]
    · rfl

/-- After the overwrite every row is the new value or an old row with another key. -/
theorem saveMetric_mem (db : DB) (m : Metric) (h : 0 < m.ID) (x : Metric)
    (hx : x ∈ (saveMetric db m).metrics) : x = m ∨ (x ∈ db.metrics ∧ x.ID ≠ m.ID) := by
  rw [saveMetric_eq db m h] at hx
  simp only [List.mem_map] at hx
  obtain ⟨r, hr, rfl⟩ := hx
  split_ifs with hc
  · exact Or.inl rfl
  · exact Or.inr ⟨hr, hc⟩

theorem saveMetric_wf (db : DB) (hm m : Metric) (hwf : db.WF) (hmem : hm ∈ db.metrics)
    (hid : m.ID = hm.ID) (hh : m.Hour = hm.Hour) : (saveMetric db m).WF := by
  obtain ⟨h1, h2, h3⟩ := saveMetric_columns db hm m hwf hmem hid hh
  have ha := saveMetric_accounts db m
  have hpos : 0 < m.ID := by
    have := (hwf.2.2.2.2 hm hmem).1
    omega
  obtain ⟨hs, hb, hc, hms, hmb⟩ := hwf
  refine ⟨by rw [ha.1]; exact hs, by rw [ha.1, ha.2]; exact hb, by rw [ha.1]; exact hc,
    by rw [h1]; exact hms, ?_⟩
  intro x hx
  rw [h3]
  rcases saveMetric_mem db m hpos x hx with rfl | ⟨hx, _⟩
  · rw [hid]; exact hmb hm hmem
  · exact hmb x hx

theorem createMetric_wf (db : DB) (m : Metric) (hwf : db.WF) : (createMetric db m).WF := by
  obtain ⟨hs, hb, hc, hms, hmb⟩ := hwf
  refine ⟨hs, hb, hc, ?_, ?_⟩
  · simp only [createMetric, List.map_append, List.map_cons, List.map_nil]
    rw [List.pairwise_append]
    refine ⟨hms, List.pairwise_singleton _ _, ?_⟩
    intro a ha b hb2
    simp only [List.mem_singleton] at hb2
    simp only [List.mem_map] at ha
    obtain ⟨r, hr, rfl⟩ := ha
    have := (hmb r hr).2
    omega
  · intro x hx
    simp only [createMetric, List.mem_append, List.mem_singleton] at hx ⊢
    rcases hx with hx | rfl
    · have := hmb x hx
      omega
    · simp

/-! ## The hourly bucket after an upsert -/

theorem bucketOK_save (db : DB) (hour : Nat) (hm m : Metric) (hwf : db.WF)
    (huniq : OneRowPerHour db) (hfind : hourMetric db hour = some hm)
    (hid : m.ID = hm.ID) (hh : m.Hour = hm.Hour)
    (hcur : m.CurrentCount = (db.accounts.length : Int)) :
    BucketOK (saveMetric db m) hour := by
  obtain ⟨hmem, hhour⟩ := hourMetric_some hfind
  obtain ⟨_, hcol, _⟩ := saveMetric_columns db hm m hwf hmem hid hh
  have hpos : 0 < m.ID := by
    have := (hwf.2.2.2.2 hm hmem).1
    omega
  have hu : OneRowPerHour (saveMetric db m) := by
    unfold OneRowPerHour
    rw [hcol]
    exact huniq
  refine ⟨?_, ?_, hu⟩
  · apply List.count_eq_one_of_mem hu
    rw [hcol]
    exact List.mem_map.mpr ⟨hm, hmem, hhour⟩
  · intro x hx hxh
    rw [(saveMetric_accounts db m).1]
    rcases saveMetric_mem db m hpos x hx with rfl | ⟨hxm, hne⟩
    · exact hcur
    · exfalso
      apply hne
      have : x = hm := List.inj_on_of_nodup_map huniq hxm hmem (hxh.trans hhour.symm)
      rw [this, hid]

theorem bucketOK_create (db : DB) (hour : Nat) (m : Metric)
    (huniq : OneRowPerHour db) (hfind : hourMetric db hour = none)
    (hh : m.Hour = hour) (hcur : m.CurrentCount = (db.accounts.length : Int)) :
    BucketOK (createMetric db m) hour := by
  have hnone := hourMetric_none hfind
  have hu : OneRowPerHour (createMetric db m) := by
    unfold OneRowPerHour at huniq ⊢
    simp only [createMetric, List.map_append, List.map_cons, List.map_nil]
    rw [List.nodup_append]
    refine ⟨huniq, List.nodup_singleton _, ?_⟩
    intro a ha hb
    simp only [List.mem_singleton] at hb
    simp only [List.mem_map] at ha
    obtain ⟨r, hr, rfl⟩ := ha
    exact hnone r hr (hb.trans hh)
  refine ⟨?_, ?_, hu⟩
  · apply List.count_eq_one_of_mem hu
    simp [createMetric, hh]
  · intro x hx hxh
    simp only [createMetric, List.mem_append, List.mem_singleton] at hx ⊢
    rcases hx with hx | rfl
    · exact absurd hxh (hnone x hx)
    · exact hcur

theorem recordConsume_bucketOK (db : DB) (now : Nat) (count : Int) (hwf : db.WF)
    (huniq : OneRowPerHour db) : BucketOK (recordConsume db now count) (formatHour now) := by
  unfold recordConsume
  simp only
  split
  · next hm hfind =>
    exact bucketOK_save db _ hm _ hwf huniq hfind rfl rfl rfl
  · next hfind =>
    exact bucketOK_create db _ _ huniq hfind rfl rfl

theorem recordConsume_wf (db : DB) (now : Nat) (count : Int) (hwf : db.WF) :
    (recordConsume db now count).WF := by
  unfold recordConsume
  simp only
  split
  · next hm hfind =>
    exact saveMetric_wf db hm _ hwf (hourMetric_some hfind).1 rfl rfl
  · exact createMetric_wf db _ hwf

/-! ## The insert loop -/

theorem addLoop_metrics (payloads : List Account) :
    ∀ (db : DB) (added : Int), (addLoop db added payloads).1.metrics = db.metrics ∧
      (addLoop db added payloads).1.metricSeq = db.metricSeq := by
  induction payloads with
  | nil => intro db added; simp [addLoop]
  | cons a rest ih =>
    intro db added
    have hm := createAccount_metrics db a
    unfold addLoop
    split
    · next db1 heq =>
      have : (createAccount db a).1 = db1 := by rw [heq]
      rw [this] at hm
      rw [(ih db1 _).1, (ih db1 _).2]
      exact hm
    · next db1 heq =>
      have : (createAccount db a).1 = db1 := by rw [heq]
      rw [this] at hm
      rw [(ih db1 _).1, (ih db1 _).2]
      exact hm

theorem addLoop_wf (payloads : List Account) :
    ∀ (db : DB) (added : Int), db.WF → (addLoop db added payloads).1.WF := by
  induction payloads with
  | nil => intro db added h; simpa [addLoop] using h
  | cons a rest ih =>
    intro db added h
    have hw := createAccount_wf db a h
    unfold addLoop
    split
    · next db1 heq =>
      have : (createAccount db a).1 = db1 := by rw [heq]
      rw [this] at hw
      exact ih db1 _ hw
    · next db1 heq =>
      have : (createAccount db a).1 = db1 := by rw [heq]
      rw [this] at hw
      exact ih db1 _ hw

theorem addAccounts_ok_eq (s : Server) (now : Nat) (payloads : List Account) :
    addAccounts s now (.ok payloads) =
      (⟨200, .message "accounts added"⟩,
        ⟨s.PASSKEY,
          match hourMetric (addLoop s.db 0 payloads).1 (formatHour now) with
          | some hm =>
            saveMetric (addLoop s.db 0 payloads).1
              { hm with
                  CurrentCount := countAccounts (addLoop s.db 0 payloads).1
                  TotalCount := wrapInt ((lastMetric s.db).TotalCount +
                    (addLoop s.db 0 payloads).2)
                  Timestamp := now }
          | none =>
            createMetric (addLoop s.db 0 payloads).1
              { ID := 0
                CurrentCount := countAccounts (addLoop s.db 0 payloads).1
                TotalCount := wrapInt ((lastMetric s.db).TotalCount +
                  (addLoop s.db 0 payloads).2)
                UsedCount := (lastMetric s.db).UsedCount
                APICallCount := (lastMetric s.db).APICallCount
                Timestamp := now
                Hour := formatHour now }⟩) := by
  rfl

/-- A 200 answer to a request for `count > 0` accounts means the header was
accepted and the pool was large enough. -/
theorem getAccounts_consume_ok (s : Server) (now : Nat) (auth : String)
    (countQuery : Option String) (count : Int)
    (hparse : Atoi (countQuery.getD "0") = some count)
    (h200 : (getAccounts s now auth countQuery).1.status = 200) :
    (∃ tok : String, auth = "Bearer " ++ tok) ∧ count ≤ (s.db.accounts.length : Int) := by
  by_cases hg : ∃ tok : String, auth = "Bearer " ++ tok
  · refine ⟨hg, ?_⟩
    obtain ⟨tok, rfl⟩ := hg
    by_contra hlt
    rw [getAccounts_insufficient s now tok countQuery count hparse (by omega)] at h200
    simp at h200
  · rw [getAccounts_unauthorized s now auth countQuery hg] at h200
    simp at h200

theorem addAccounts_ok (s : Server) (now : Nat) (input : Except String (List Account))
    (h200 : (addAccounts s now input).1.status = 200) :
    ∃ payloads, input = .ok payloads := by
  cases input with
  | error e => simp [addAccounts] at h200
  | ok payloads => exact ⟨payloads, rfl⟩

theorem consume_delete_wf (db : DB) (n : Nat) (hwf : db.WF) :
    ((db.accounts.take n).foldl deleteAccount db).WF := by
  rw [consume_delete_eq db n hwf]
  obtain ⟨hs, hb, hc, hm, hmb⟩ := hwf
  refine ⟨?_, ?_, ?_, hm, hmb⟩
  · exact hs.sublist ((List.drop_sublist _ _).map _)
  · intro x hx
    exact hb x (List.mem_of_mem_drop hx)
  · exact hc.sublist ((List.drop_sublist _ _).map _)

theorem getAccounts_consume_bucketOK (s : Server) (now : Nat) (tok : String)
    (countQuery : Option String) (count : Int)
    (hparse : Atoi (countQuery.getD "0") = some count) (hpos : 0 < count)
    (hle : count ≤ (s.db.accounts.length : Int)) (hwf : s.db.WF)
    (huniq : OneRowPerHour s.db) :
    BucketOK (getAccounts s now ("Bearer " ++ tok) countQuery).2.db (formatHour now) := by
  rw [getAccounts_consume_eq s now tok countQuery count hparse hpos hle]
  apply recordConsume_bucketOK _ _ _ (consume_delete_wf s.db _ hwf)
  rw [consume_delete_eq s.db _ hwf]
  exact huniq

theorem addAccounts_bucketOK (s : Server) (now : Nat) (payloads : List Account)
    (hwf : s.db.WF) (huniq : OneRowPerHour s.db) :
    BucketOK (addAccounts s now (.ok payloads)).2.db (formatHour now) := by
  rw [addAccounts_ok_eq]
  have hw1 := addLoop_wf payloads s.db 0 hwf
  have hu1 : OneRowPerHour (addLoop s.db 0 payloads).1 := by
    unfold OneRowPerHour
    rw [(addLoop_metrics payloads s.db 0).1]
    exact huniq
  simp only
  split
  · next hm hfind =>
    exact bucketOK_save _ _ hm _ hw1 hu1 hfind rfl rfl rfl
  · next hfind =>
    exact bucketOK_create _ _ _ hu1 hfind rfl rfl

/-! ## Claim on the hourly bucket -/

/-- C6: on a well-formed store with at most one `Metric` row per hour, after
any successful consume (`getAccounts` answering 200 for `count > 0`) and after
any successful add (`addAccounts` answering 200) the hour column holds the
current hour exactly once, the row of that hour has `current_count` equal to
the number of accounts in the pool at the end of the operation, and there is
still at most one row per hour. -/
theorem metric_bucket_after_mutation (s : Server) (now : Nat) (hwf : s.db.WF)
    (huniq : OneRowPerHour s.db) :
    (∀ (auth : String) (countQuery : Option String) (count : Int),
      Atoi (countQuery.getD "0") = some count → 0 < count →
      (getAccounts s now auth countQuery).1.status = 200 →
      BucketOK (getAccounts s now auth countQuery).2.db (formatHour now)) ∧
    (∀ input : Except String (List Account),
      (addAccounts s now input).1.status = 200 →
      BucketOK (addAccounts s now input).2.db (formatHour now)) := by
  constructor
  · intro auth countQuery count hparse hpos h200
    obtain ⟨⟨tok, rfl⟩, hle⟩ := getAccounts_consume_ok s now auth countQuery count hparse h200
    exact getAccounts_consume_bucketOK s now tok countQuery count hparse hpos hle hwf huniq
  · intro input h200
    obtain ⟨payloads, rfl⟩ := addAccounts_ok s now input h200
    exact addAccounts_bucketOK s now payloads hwf huniq

/-- C6 (witness): a consume within the hour of the only bucket row and an add
in the next hour. -/
theorem metric_bucket_after_mutation_witness :
    hourZeroServer.db.WF ∧ OneRowPerHour hourZeroServer.db ∧
    BucketOK (getAccounts hourZeroServer 60 "Bearer x" (some "1")).2.db (formatHour 60) ∧
    BucketOK (addAccounts hourZeroServer 3700 (.ok mixedPayloads)).2.db (formatHour 3700) :=
  ⟨by decide, by decide,
   (metric_bucket_after_mutation hourZeroServer 60 (by decide) (by decide)).1
      "Bearer x" (some "1") 1 (by decide) (by decide) (by decide),
   (metric_bucket_after_mutation hourZeroServer 3700 (by decide) (by decide)).2
      (.ok mixedPayloads) (by decide)⟩

/-! ## Claim on bulk insertion -/

theorem addLoop_cons (db : DB) (added : Int) (a : Account) (rest : List Account) :
    addLoop db added (a :: rest) =
      addLoop (createAccount db a).1
        (if (createAccount db a).2 then wrapInt (added + 1) else added) rest := by
  conv_lhs => unfold addLoop
  split
  · next db1 heq => simp [heq]
  · next db1 heq => simp [heq]

/-- A payload whose insert fails is skipped: the loop goes on as if it were
not in the batch. -/
theorem addLoop_skip (db : DB) (added : Int) (a : Account) (rest : List Account)
    (h : (createAccount db a).2 = false) :
    addLoop db added (a :: rest) = addLoop db added rest := by
  rw [addLoop_cons, createAccount_fail db a h, h]
  simp

theorem addLoop_append (pre : List Account) :
    ∀ (db : DB) (added : Int) (post : List Account),
      addLoop db added (pre ++ post) =
        addLoop (addLoop db added pre).1 (addLoop db added pre).2 post := by
  induction pre with
  | nil => intro db added post; simp [addLoop]
  | cons a rest ih =>
    intro db added post
    rw [List.cons_append, addLoop_cons, addLoop_cons, ih]

/-- The answer and the store of `addAccounts` depend on the batch only through
the insert loop. -/
theorem addAccounts_congr (s : Server) (now : Nat) (ps qs : List Account)
    (h : addLoop s.db 0 ps = addLoop s.db 0 qs) :
    addAccounts s now (.ok ps) = addAccounts s now (.ok qs) := by
  rw [addAccounts_ok_eq, addAccounts_ok_eq, h]

theorem createAccount_dup_fails (db : DB) (a : Account)
    (h : a.ClientID ∈ db.accounts.map Account.ClientID) : (createAccount db a).2 = false := by
  rcases createAccount_cases db a with h2 | ⟨id, _, hfree, _⟩
  · rw [h2]
  · exfalso
    obtain ⟨b, hb, hbc⟩ := List.mem_map.mp h
    exact (hfree b hb).2 hbc

theorem duplicatesAgainst_le (db : DB) (payloads : List Account) :
    duplicatesAgainst db payloads ≤ payloads.length :=
  List.length_filter_le _ _

/-- Rows after the loop, counted against the payloads that hit a stored
`client_id`, for payloads without keys and with pairwise distinct `client_id`s
on a table with enough keys left; all their `client_id`s are stored then. -/
theorem addLoop_length (payloads : List Account) :
    ∀ (db : DB) (added : Int), db.WF → (∀ p ∈ payloads, p.ID = 0) →
      (payloads.map Account.ClientID).Nodup →
      db.accountSeq + (payloads.length - duplicatesAgainst db payloads) ≤ maxKey →
      (addLoop db added payloads).1.accounts.length + duplicatesAgainst db payloads =
        db.accounts.length + payloads.length ∧
      (∀ c ∈ db.accounts.map Account.ClientID,
        c ∈ (addLoop db added payloads).1.accounts.map Account.ClientID) ∧
      (∀ p ∈ payloads,
        p.ClientID ∈ (addLoop db added payloads).1.accounts.map Account.ClientID) := by
  induction payloads with
  | nil => intro db added _ _ _ _; simp [addLoop, duplicatesAgainst]
  | cons a rest ih =>
    intro db added hwf hids hnd hroom
    rw [addLoop_cons]
    have hid : a.ID = 0 := hids a (List.mem_cons_self _ _)
    have hids2 : ∀ p ∈ rest, p.ID = 0 := fun p hp => hids p (List.mem_cons_of_mem _ hp)
    simp only [List.map_cons, List.nodup_cons] at hnd
    obtain ⟨hnew, hnd2⟩ := hnd
    have hlen := createAccount_length db a
    have hle := duplicatesAgainst_le db rest
    by_cases hdup : a.ClientID ∈ db.accounts.map Account.ClientID
    · have hf := createAccount_dup_fails db a hdup
      have hd2 : duplicatesAgainst db (a :: rest) = duplicatesAgainst db rest + 1 := by
        unfold duplicatesAgainst
        rw [List.filter_cons_of_pos (by simpa using hdup)]
        simp
      rw [hd2] at hroom ⊢
      simp only [List.length_cons] at hroom
      rw [createAccount_fail db a hf]
      obtain ⟨i1, i2, i3⟩ := ih db (if (createAccount db a).2 then wrapInt (added + 1) else added)
        hwf hids2 hnd2 (by omega)
      refine ⟨by simp only [List.length_cons]; omega, i2, ?_⟩
      intro p hp
      rcases List.mem_cons.mp hp with heq | hp
      · rw [heq]
        exact i2 _ hdup
      · exact i3 p hp
    · have hd2 : duplicatesAgainst db (a :: rest) = duplicatesAgainst db rest := by
        unfold duplicatesAgainst
        rw [List.filter_cons_of_neg (by simpa using hdup)]
      rw [hd2] at hroom ⊢
      simp only [List.length_cons] at hroom
      have hfree : db.accountSeq < maxKey := by omega
      have hok : (createAccount db a).2 = true :=
        (createAccount_ok_iff db a hwf hid hfree).mpr hdup
      have hseq := createAccount_seq db a hid hok
      have hd : duplicatesAgainst (createAccount db a).1 rest = duplicatesAgainst db rest := by
        unfold duplicatesAgainst
        congr 1
        apply List.filter_congr
        intro p hp
        have hne : p.ClientID ≠ a.ClientID := by
          intro heq
          exact hnew (heq ▸ List.mem_map_of_mem _ hp)
        simp only [createAccount_clientIDs db a hok, hne, false_or]
      obtain ⟨i1, i2, i3⟩ := ih (createAccount db a).1
        (if (createAccount db a).2 then wrapInt (added + 1) else added)
        (createAccount_wf db a hwf) hids2 hnd2 (by rw [hd, hseq]; omega)
      rw [hd] at i1
      rw [hok] at hlen
      simp only [if_true] at hlen
      refine ⟨by simp only [List.length_cons]; omega, ?_, ?_⟩
      · intro c hc
        exact i2 c ((createAccount_clientIDs db a hok c).mpr (Or.inr hc))
      · intro p hp
        rcases List.mem_cons.mp hp with heq | hp
        · rw [heq]
          exact i2 _ ((createAccount_clientIDs db a hok _).mpr (Or.inl rfl))
        · exact i3 p hp

theorem addAccounts_accounts (s : Server) (now : Nat) (payloads : List Account) :
    (addAccounts s now (.ok payloads)).2.db.accounts = (addLoop s.db 0 payloads).1.accounts := by
  rw [addAccounts_ok_eq]
  simp only
  split
  · exact (saveMetric_accounts _ _).1
  · exact (createMetric_accounts _ _).1

/-- C2 (counterexample): three batches of `K = 2` payloads of which `D = 0`
repeat a stored `client_id`, none leaving `K - D = 2` new rows.  On an empty
pool two payloads sharing one `client_id` leave one new row; on an empty pool
two payloads with distinct `client_id`s that both carry id 5 leave one new
row; on the store reached by one add of an account carrying the largest key,
two payloads without id and with distinct new `client_id`s leave no new row. -/
theorem addAccounts_new_rows_counterexample :
    (twinPayloads.length = 2 ∧ duplicatesAgainst emptyDB twinPayloads = 0 ∧
      (addAccounts ⟨"hunter2", emptyDB⟩ 0 (.ok twinPayloads)).2.db.accounts.length =
        emptyDB.accounts.length + 1) ∧
    (sharedKeyPayloads.length = 2 ∧ duplicatesAgainst emptyDB sharedKeyPayloads = 0 ∧
      (sharedKeyPayloads.map Account.ClientID).Nodup ∧
      (addAccounts ⟨"hunter2", emptyDB⟩ 0 (.ok sharedKeyPayloads)).2.db.accounts.length =
        emptyDB.accounts.length + 1) ∧
    ((addAccounts ⟨"hunter2", emptyDB⟩ 0
        (.ok [⟨9223372036854775807, "refresh-0", "client-a", "secret-0"⟩])).2 =
        lastKeyServer ∧
      freshPayloads.length = 2 ∧ duplicatesAgainst lastKeyServer.db freshPayloads = 0 ∧
      (freshPayloads.map Account.ClientID).Nodup ∧
      (addAccounts lastKeyServer 0 (.ok freshPayloads)).1 =
        ⟨200, .message "accounts added"⟩ ∧
      (addAccounts lastKeyServer 0 (.ok freshPayloads)).2.db.accounts.length =
        lastKeyServer.db.accounts.length + 0) := by
  decide

/-- C2 (amended): `addAccounts` answers a bound batch with the 200
acknowledgment whatever happens to the inserts, and a failed insert does not
abort the ones after it: the answer and the store are those of the batch
without the failing payload.  On a well-formed pool, for `K` payloads that
carry no id and have pairwise distinct `client_id`s, of which `D` repeat the
`client_id` of a stored account, with `K - D` keys left in the table, exactly
`K - D` new rows exist afterwards and every payload's `client_id` is stored. -/
theorem addAccounts_new_rows (s : Server) (now : Nat) (payloads : List Account) :
    (addAccounts s now (.ok payloads)).1 = ⟨200, .message "accounts added"⟩ ∧
    (∀ (pre : List Account) (a : Account) (post : List Account),
      payloads = pre ++ a :: post →
      (createAccount (addLoop s.db 0 pre).1 a).2 = false →
      addAccounts s now (.ok payloads) = addAccounts s now (.ok (pre ++ post))) ∧
    (s.db.WF → (∀ p ∈ payloads, p.ID = 0) → (payloads.map Account.ClientID).Nodup →
      s.db.accountSeq + (payloads.length - duplicatesAgainst s.db payloads) ≤ maxKey →
      (addAccounts s now (.ok payloads)).2.db.accounts.length =
        s.db.accounts.length + (payloads.length - duplicatesAgainst s.db payloads) ∧
      (∀ p ∈ payloads,
        p.ClientID ∈
          (addAccounts s now (.ok payloads)).2.db.accounts.map Account.ClientID)) := by
  refine ⟨rfl, ?_, ?_⟩
  · rintro pre a post rfl hfail
    apply addAccounts_congr
    rw [addLoop_append, addLoop_append, addLoop_skip _ _ a post hfail]
  · intro hwf hids hnd hroom
    rw [addAccounts_accounts]
    obtain ⟨h, _, h3⟩ := addLoop_length payloads s.db 0 hwf hids hnd hroom
    have hle := duplicatesAgainst_le s.db payloads
    exact ⟨by omega, h3⟩

/-- C2 (witness): three payloads against one stored account, the first a
duplicate whose insert fails. -/
theorem addAccounts_new_rows_witness :
    oneAccountServer.db.WF ∧ mixedPayloads.length = 3 ∧
    duplicatesAgainst oneAccountServer.db mixedPayloads = 1 ∧
    (addAccounts oneAccountServer 0 (.ok mixedPayloads)).1 = ⟨200, .message "accounts added"⟩ ∧
    addAccounts oneAccountServer 0 (.ok mixedPayloads) =
      addAccounts oneAccountServer 0 (.ok ([] ++ mixedPayloads.tail)) ∧
    (addAccounts oneAccountServer 0 (.ok mixedPayloads)).2.db.accounts.length = 1 + (3 - 1) :=
  ⟨by decide, by decide, by decide,
   (addAccounts_new_rows oneAccountServer 0 mixedPayloads).1,
   (addAccounts_new_rows oneAccountServer 0 mixedPayloads).2.1 []
      ⟨0, "refresh-1", "client-a", "secret-1"⟩ mixedPayloads.tail (by decide) (by decide),
   ((addAccounts_new_rows oneAccountServer 0 mixedPayloads).2.2 (by decide) (by decide)
      (by decide) (by decide)).1⟩

/-! ## Claim on a freshly created bucket -/

theorem foldl_deleteAccount_metrics (l : List Account) :
    ∀ db : DB, (l.foldl deleteAccount db).metrics = db.metrics ∧
      (l.foldl deleteAccount db).metricSeq = db.metricSeq := by
  induction l with
  | nil => intro db; simp
  | cons a rest ih =>
    intro db
    simp only [List.foldl_cons]
    rw [(ih _).1, (ih _).2]
    unfold deleteAccount
    split_ifs <;> simp

theorem recordConsume_none (db : DB) (now : Nat) (count : Int)
    (h : hourMetric db (formatHour now) = none) :
    (recordConsume db now count).metrics =
      db.metrics ++ [⟨db.metricSeq + 1, db.accounts.length, (lastMetric db).TotalCount,
        wrapInt ((lastMetric db).UsedCount + count),
        wrapInt ((lastMetric db).APICallCount + 1), now, formatHour now⟩] := by
  unfold recordConsume
  simp only [h, createMetric, countAccounts]

theorem recordConsume_some (db : DB) (now : Nat) (count : Int) (hm : Metric)
    (h : hourMetric db (formatHour now) = some hm) :
    recordConsume db now count =
      saveMetric db ⟨hm.ID, db.accounts.length, (lastMetric db).TotalCount,
        wrapInt ((lastMetric db).UsedCount + count),
        wrapInt ((lastMetric db).APICallCount + 1), now, hm.Hour⟩ := by
  unfold recordConsume
  simp only [h, countAccounts]

theorem saveMetric_mem_self (db : DB) (hm m : Metric) (hmem : hm ∈ db.metrics)
    (hid : m.ID = hm.ID) (hpos : 0 < m.ID) : m ∈ (saveMetric db m).metrics := by
  rw [saveMetric_eq db m hpos]
  simp only [List.mem_map]
  exact ⟨hm, hmem, by rw [if_pos hid.symm]⟩

/-- The store a successful consume hands to the metric upsert. -/
theorem consume_store (db : DB) (n : Nat) (hwf : db.WF) :
    hourMetric ((db.accounts.take n).foldl deleteAccount db) = hourMetric db ∧
    lastMetric ((db.accounts.take n).foldl deleteAccount db) = lastMetric db ∧
    ((db.accounts.take n).foldl deleteAccount db).metrics = db.metrics ∧
    ((db.accounts.take n).foldl deleteAccount db).metricSeq = db.metricSeq ∧
    ((db.accounts.take n).foldl deleteAccount db).accounts = db.accounts.drop n := by
  rw [consume_delete_eq db n hwf]
  exact ⟨rfl, rfl, rfl, rfl, rfl⟩

/-- C8 (counterexample): a store whose only `Metric` row is for hour 0 with
`used_count = 0` and `api_call_count = 0`; consuming one account in hour 1
finds no bucket row and creates one with `used_count = 1` and
`api_call_count = 1`, not the seed's 0 and 0. -/
theorem consume_new_bucket_counterexample :
    hourMetric hourZeroServer.db (formatHour 3600) = none ∧
    (lastMetric hourZeroServer.db).UsedCount = 0 ∧
    (lastMetric hourZeroServer.db).APICallCount = 0 ∧
    (getAccounts hourZeroServer 3600 "Bearer x" (some "1")).1.status = 200 ∧
    (getAccounts hourZeroServer 3600 "Bearer x" (some "1")).2.db.metrics =
      [⟨1, 1, 1, 0, 0, 0, 0⟩, ⟨2, 0, 1, 1, 1, 3600, 1⟩] := by
  decide

/-- C8 (amended): on a well-formed store, a successful consume of `count > 0`
accounts that finds no `Metric` row for the current hour appends a new bucket
row whose `used_count` is the seed's `used_count` plus `count` and whose
`api_call_count` is the seed's plus 1 (Go `int` arithmetic; exact whenever the
sums are representable), with `total_count` carried from the seed; a consume
that finds the bucket row writes the same incremented values into it.  The
seed is the row with the greatest id, or zeros when there is none. -/
theorem consume_bucket_increments (s : Server) (now : Nat) (auth : String)
    (countQuery : Option String) (count : Int) (hwf : s.db.WF)
    (hparse : Atoi (countQuery.getD "0") = some count) (hpos : 0 < count)
    (h200 : (getAccounts s now auth countQuery).1.status = 200) :
    (hourMetric s.db (formatHour now) = none →
      ∃ row : Metric,
        (getAccounts s now auth countQuery).2.db.metrics = s.db.metrics ++ [row] ∧
        row.Hour = formatHour now ∧
        row.TotalCount = (lastMetric s.db).TotalCount ∧
        row.UsedCount = wrapInt ((lastMetric s.db).UsedCount + count) ∧
        row.APICallCount = wrapInt ((lastMetric s.db).APICallCount + 1) ∧
        (InRange ((lastMetric s.db).UsedCount + count) →
          row.UsedCount = (lastMetric s.db).UsedCount + count) ∧
        (InRange ((lastMetric s.db).APICallCount + 1) →
          row.APICallCount = (lastMetric s.db).APICallCount + 1)) ∧
    (∀ hm : Metric, hourMetric s.db (formatHour now) = some hm →
      ∃ row ∈ (getAccounts s now auth countQuery).2.db.metrics,
        row.ID = hm.ID ∧ row.Hour = formatHour now ∧
        row.TotalCount = (lastMetric s.db).TotalCount ∧
        row.UsedCount = wrapInt ((lastMetric s.db).UsedCount + count) ∧
        row.APICallCount = wrapInt ((lastMetric s.db).APICallCount + 1)) := by
  obtain ⟨⟨tok, rfl⟩, hle⟩ := getAccounts_consume_ok s now auth countQuery count hparse h200
  rw [getAccounts_consume_eq s now tok countQuery count hparse hpos hle]
  obtain ⟨hh, hl, hmet, hseq, hacc⟩ := consume_store s.db count.toNat hwf
  constructor
  · intro hnone
    rw [← hh] at hnone
    refine ⟨⟨s.db.metricSeq + 1, (s.db.accounts.drop count.toNat).length,
      (lastMetric s.db).TotalCount, wrapInt ((lastMetric s.db).UsedCount + count),
      wrapInt ((lastMetric s.db).APICallCount + 1), now, formatHour now⟩,
      ?_, rfl, ?_, ?_, ?_, ?_, ?_⟩
    · rw [recordConsume_none _ now count hnone, hmet, hseq, hl, hacc]
    · simp only [hl]
    · simp only [hl]
    · simp only [hl]
    · intro hr
      simp only [hl]
      exact wrapInt_of_inRange hr
    · intro hr
      simp only [hl]
      exact wrapInt_of_inRange hr
  · intro hm hsome
    have hsome2 := hsome
    rw [← hh] at hsome2
    obtain ⟨hmem, hhour⟩ := hourMetric_some hsome2
    have hpos2 : 0 < hm.ID := (hwf.2.2.2.2 hm (hourMetric_some hsome).1).1
    simp only [recordConsume_some _ now count hm hsome2]
    refine ⟨_, saveMetric_mem_self _ hm _ hmem rfl hpos2, rfl, hhour, ?_, ?_, ?_⟩
    · simp only [hl]
    · simp only [hl]
    · simp only [hl]

/-- C8 (witness): a consume two hours after the only bucket row was written. -/
theorem consume_bucket_increments_witness :
    ∃ row : Metric,
      (getAccounts hourZeroServer 7200 "Bearer x" (some "1")).2.db.metrics =
        hourZeroServer.db.metrics ++ [row] ∧
      row.UsedCount = 0 + 1 ∧ row.APICallCount = 0 + 1 := by
  obtain ⟨row, h1, _, _, _, _, h2, h3⟩ :=
    (consume_bucket_increments hourZeroServer 7200 "Bearer x" (some "1") 1 (by decide)
      (by decide) (by decide) (by decide)).1 (by decide)
  exact ⟨row, h1, h2 (by decide), h3 (by decide)⟩

/-! ## Claim on the counters of a bucket row updated in place -/

/-- The tally of the insert loop is the number of rows it added, as long as
it cannot overflow. -/
theorem addLoop_added (payloads : List Account) :
    ∀ (db : DB) (added : Int), 0 ≤ added →
      added + (payloads.length : Int) < 9223372036854775808 →
      db.accounts.length ≤ (addLoop db added payloads).1.accounts.length ∧
      (addLoop db added payloads).1.accounts.length ≤ db.accounts.length + payloads.length ∧
      (addLoop db added payloads).2 =
        added + (((addLoop db added payloads).1.accounts.length : Int) -
          (db.accounts.length : Int)) := by
  induction payloads with
  | nil => intro db added _ _; simp [addLoop]
  | cons a rest ih =>
    intro db added h0 hb
    rw [addLoop_cons]
    have hlen := createAccount_length db a
    simp only [List.length_cons, Nat.cast_add, Nat.cast_one] at hb
    by_cases hok : (createAccount db a).2 = true
    · simp only [hok, if_true] at hlen ⊢
      have hw : wrapInt (added + 1) = added + 1 := wrapInt_of_inRange ⟨by omega, by omega⟩
      rw [hw]
      obtain ⟨i1, i2, i3⟩ := ih (createAccount db a).1 (added + 1) (by omega) (by omega)
      refine ⟨by omega, by simp only [List.length_cons]; omega, ?_⟩
      rw [i3, hlen]
      push_cast
      ring
    · have hf : (createAccount db a).2 = false := by simpa using hok
      simp only [hf, Bool.false_eq_true, if_false, add_zero] at hlen ⊢
      obtain ⟨i1, i2, i3⟩ := ih (createAccount db a).1 added h0 (by omega)
      refine ⟨by omega, by simp only [List.length_cons]; omega, ?_⟩
      rw [i3, hlen]

theorem addLoop_hourMetric (payloads : List Account) (db : DB) (added : Int) :
    hourMetric (addLoop db added payloads).1 = hourMetric db := by
  funext hour
  unfold hourMetric
  rw [(addLoop_metrics payloads db added).1]

/-- C9 (counterexample): `skewedServer` is reached from the empty store by
three adds whose clock goes back from hour 6 to hour 5; its hour-5 row has
`total_count = 3` while the row with the greatest id has `total_count = 1`.
Adding one more account in hour 5 updates the hour-5 row in place and sets its
`total_count` to 2, below the 3 it held before. -/
theorem bucket_total_decreases_counterexample :
    (addAccounts (addAccounts (addAccounts ⟨"hunter2", emptyDB⟩ 18000
        (.ok [⟨0, "refresh-1", "client-a", "secret-1"⟩])).2 21600 (.ok [])).2 18060
        (.ok [⟨0, "refresh-2", "client-b", "secret-2"⟩,
              ⟨0, "refresh-3", "client-c", "secret-3"⟩])).2 = skewedServer ∧
    hourMetric skewedServer.db (formatHour 18120) = some ⟨1, 3, 3, 0, 0, 18060, 5⟩ ∧
    (addAccounts skewedServer 18120
        (.ok [⟨0, "refresh-4", "client-d", "secret-4"⟩])).1.status = 200 ∧
    (addAccounts skewedServer 18120
        (.ok [⟨0, "refresh-4", "client-d", "secret-4"⟩])).2.db.metrics =
      [⟨1, 4, 2, 0, 0, 18120, 5⟩, ⟨2, 1, 1, 0, 0, 21600, 6⟩] := by
  decide

/-- C9 (amended): on a well-formed store where the `Metric` row of the current
hour is also the row with the greatest id (as it is whenever hour keys never go
backwards), a successful consume or add updates that row in place, and its
`total_count`, `used_count` and `api_call_count` afterwards are each at least
what they were before, provided the new values are representable in a Go
`int`. -/
theorem bucket_counters_nondecreasing (s : Server) (now : Nat) (hm : Metric) (hwf : s.db.WF)
    (hfind : hourMetric s.db (formatHour now) = some hm) (hlast : lastMetric s.db = hm) :
    (∀ (auth : String) (countQuery : Option String) (count : Int),
      Atoi (countQuery.getD "0") = some count → 0 < count →
      (getAccounts s now auth countQuery).1.status = 200 →
      InRange (hm.UsedCount + count) → InRange (hm.APICallCount + 1) →
      ∃ row ∈ (getAccounts s now auth countQuery).2.db.metrics,
        row.ID = hm.ID ∧
        (∀ x ∈ (getAccounts s now auth countQuery).2.db.metrics, x.ID = hm.ID → x = row) ∧
        hm.TotalCount ≤ row.TotalCount ∧ hm.UsedCount ≤ row.UsedCount ∧
        hm.APICallCount ≤ row.APICallCount) ∧
    (∀ payloads : List Account,
      (payloads.length : Int) < 9223372036854775808 →
      InRange hm.TotalCount → InRange (hm.TotalCount + (payloads.length : Int)) →
      ∃ row ∈ (addAccounts s now (.ok payloads)).2.db.metrics,
        row.ID = hm.ID ∧
        (∀ x ∈ (addAccounts s now (.ok payloads)).2.db.metrics, x.ID = hm.ID → x = row) ∧
        hm.TotalCount ≤ row.TotalCount ∧ hm.UsedCount ≤ row.UsedCount ∧
        hm.APICallCount ≤ row.APICallCount) := by
  have hmem0 := (hourMetric_some hfind).1
  have hpos2 : 0 < hm.ID := (hwf.2.2.2.2 hm hmem0).1
  constructor
  · intro auth countQuery count hparse hpos h200 hr1 hr2
    obtain ⟨⟨tok, rfl⟩, hle⟩ := getAccounts_consume_ok s now auth countQuery count hparse h200
    rw [getAccounts_consume_eq s now tok countQuery count hparse hpos hle]
    obtain ⟨hh, hl, hmet, _, _⟩ := consume_store s.db count.toNat hwf
    have hsome2 := hfind
    rw [← hh] at hsome2
    have hmem := (hourMetric_some hsome2).1
    simp only [recordConsume_some _ now count hm hsome2, hl, hlast]
    refine ⟨_, saveMetric_mem_self _ hm _ hmem rfl hpos2, rfl, ?_, le_refl _, ?_, ?_⟩
    · intro x hx hxid
      rcases saveMetric_mem _ _ (by exact hpos2) x hx with h | ⟨_, hne⟩
      · exact h
      · exact absurd hxid hne
    · simp only [wrapInt_of_inRange hr1]
      omega
    · simp only [wrapInt_of_inRange hr2]
      omega
  · intro payloads hlen hr0 hr1
    rw [addAccounts_ok_eq]
    simp only [addLoop_hourMetric, hfind, hlast]
    have hmem : hm ∈ (addLoop s.db 0 payloads).1.metrics := by
      rw [(addLoop_metrics payloads s.db 0).1]
      exact hmem0
    obtain ⟨a1, a2, a3⟩ := addLoop_added payloads s.db 0 (le_refl _) (by omega)
    refine ⟨_, saveMetric_mem_self _ hm _ hmem rfl hpos2, rfl, ?_, ?_, le_refl _, le_refl _⟩
    · intro x hx hxid
      rcases saveMetric_mem _ _ (by exact hpos2) x hx with h | ⟨_, hne⟩
      · exact h
      · exact absurd hxid hne
    · have hr : InRange (hm.TotalCount + (addLoop s.db 0 payloads).2) := by
        unfold InRange at hr0 hr1 ⊢
        omega
      simp only [wrapInt_of_inRange hr]
      omega

/-- C9 (witness): a consume and an add within the hour of the only bucket row. -/
theorem bucket_counters_nondecreasing_witness :
    (∃ row ∈ (getAccounts hourZeroServer 60 "Bearer x" (some "1")).2.db.metrics,
      row.ID = 1 ∧ (1 : Int) ≤ row.TotalCount ∧ (0 : Int) ≤ row.UsedCount ∧
        (0 : Int) ≤ row.APICallCount) ∧
    (∃ row ∈ (addAccounts hourZeroServer 60 (.ok mixedPayloads)).2.db.metrics,
      row.ID = 1 ∧ (1 : Int) ≤ row.TotalCount ∧ (0 : Int) ≤ row.UsedCount ∧
        (0 : Int) ≤ row.APICallCount) := by
  have h := bucket_counters_nondecreasing hourZeroServer 60 ⟨1, 1, 1, 0, 0, 0, 0⟩
    (by decide) (by decide) (by decide)
  obtain ⟨row, hr, h1, _, h2, h3, h4⟩ :=
    h.1 "Bearer x" (some "1") 1 (by decide) (by decide) (by decide) (by decide) (by decide)
  obtain ⟨row2, hr2, k1, _, k2, k3, k4⟩ :=
    h.2 mixedPayloads (by decide) (by decide) (by decide)
  exact ⟨⟨row, hr, h1, h2, h3, h4⟩, ⟨row2, hr2, k1, k2, k3, k4⟩⟩

/-! ## End-to-end scenario -/

theorem wrapInt_one : wrapInt 1 = 1 := by decide

theorem wrapInt_two : wrapInt 2 = 2 := by decide

/-- The store after adding two fresh accounts to a store with empty tables
and two keys left. -/
theorem addAccounts_two_fresh (s : Server) (a1 a2 : Account) (t1 : Nat)
    (hacc : s.db.accounts = []) (hmet : s.db.metrics = [])
    (hroom : s.db.accountSeq + 2 ≤ maxKey)
    (hid1 : a1.ID = 0) (hid2 : a2.ID = 0) (hne : a1.ClientID ≠ a2.ClientID) :
    (addAccounts s t1 (.ok [a1, a2])).2 =
      ⟨s.PASSKEY,
       { accounts := [{ a1 with ID := s.db.accountSeq + 1 },
                      { a2 with ID := s.db.accountSeq + 2 }],
         accountSeq := s.db.accountSeq + 2,
         metrics := [⟨s.db.metricSeq + 1, 2, 2, 0, 0, t1, formatHour t1⟩],
         metricSeq := s.db.metricSeq + 1 }⟩ := by
  have h1 : s.db.accountSeq < maxKey := by omega
  have h2 : s.db.accountSeq + 1 < maxKey := by omega
  simp [addAccounts, addLoop, createAccount, assignKey, hid1, hid2, hne, insertRow,
    hacc, hmet, hourMetric, createMetric, lastMetric, zeroMetric, countAccounts, wrapInt_one,
    wrapInt_two, Ne.symm hne, h1, h2]

/-- The answer and the store after consuming one of the two accounts within
the hour of the add. -/
theorem consume_one_of_two (s : Server) (a1 a2 : Account) (t1 t2 : Nat) (tok : String)
    (hacc : s.db.accounts = []) (hmet : s.db.metrics = [])
    (hroom : s.db.accountSeq + 2 ≤ maxKey)
    (hid1 : a1.ID = 0) (hid2 : a2.ID = 0) (hne : a1.ClientID ≠ a2.ClientID)
    (hsame : formatHour t2 = formatHour t1) :
    getAccounts (addAccounts s t1 (.ok [a1, a2])).2 t2 ("Bearer " ++ tok) (some "1") =
      (⟨200, .accounts [{ a1 with ID := s.db.accountSeq + 1 }]⟩,
       ⟨s.PASSKEY,
        { accounts := [{ a2 with ID := s.db.accountSeq + 2 }],
          accountSeq := s.db.accountSeq + 2,
          metrics := [⟨s.db.metricSeq + 1, 1, 2, 1, 1, t2, formatHour t1⟩],
          metricSeq := s.db.metricSeq + 1 }⟩) := by
  rw [addAccounts_two_fresh s a1 a2 t1 hacc hmet hroom hid1 hid2 hne]
  rw [getAccounts_consume_eq _ t2 tok (some "1") 1 (by decide) (by decide)
    (by simp)]
  simp [deleteAccount, recordConsume, hourMetric, hsame, saveMetric, lastMetric,
    countAccounts, wrapInt_one]

/-- C7 (counterexample): on the fresh store, two accounts with distinct
`client_id`s that both carry id 5: the second insert fails on the primary key,
and the one `Metric` row created has `total_count = 1`, not 2. -/
theorem scenario_shared_key_counterexample :
    (sharedKeyPayloads.map Account.ClientID).Nodup ∧
    (addAccounts ⟨"hunter2", emptyDB⟩ 100 (.ok sharedKeyPayloads)).1.status = 200 ∧
    (addAccounts ⟨"hunter2", emptyDB⟩ 100 (.ok sharedKeyPayloads)).2.db.accounts.length = 1 ∧
    (addAccounts ⟨"hunter2", emptyDB⟩ 100 (.ok sharedKeyPayloads)).2.db.metrics =
      [⟨1, 1, 1, 0, 0, 100, 0⟩] := by
  decide

/-- C7 (amended): from an empty pool without metrics whose key counters leave
room for the new rows (as on a fresh store), adding two accounts that carry no
id and have distinct `client_id`s creates one `Metric` row with
`total_count = 2`; consuming one account within the same hour answers 200 and
leaves that single row, same id, with `used_count = 1` and `current_count = 1`;
a following `getAccounts` with `count = 5` answers 400 with `available = 1`
and `requested = 5`. -/
theorem scenario_add_consume_overdraw (s : Server) (a1 a2 : Account) (t1 t2 t3 : Nat)
    (tok tok2 : String) (hacc : s.db.accounts = []) (hmet : s.db.metrics = [])
    (hroom : s.db.accountSeq + 2 ≤ maxKey) (hmroom : s.db.metricSeq < maxKey)
    (hid1 : a1.ID = 0) (hid2 : a2.ID = 0)
    (hne : a1.ClientID ≠ a2.ClientID) (hsame : formatHour t2 = formatHour t1) :
    (∃ m : Metric,
      (addAccounts s t1 (.ok [a1, a2])).2.db.metrics = [m] ∧
      m.TotalCount = 2 ∧ m.ID ≤ maxKey ∧
      ∃ m2 : Metric,
        (getAccounts (addAccounts s t1 (.ok [a1, a2])).2 t2
          ("Bearer " ++ tok) (some "1")).2.db.metrics = [m2] ∧
        m2.ID = m.ID ∧ m2.UsedCount = 1 ∧ m2.CurrentCount = 1) ∧
    (getAccounts (addAccounts s t1 (.ok [a1, a2])).2 t2
      ("Bearer " ++ tok) (some "1")).1.status = 200 ∧
    (getAccounts
      (getAccounts (addAccounts s t1 (.ok [a1, a2])).2 t2
        ("Bearer " ++ tok) (some "1")).2 t3 ("Bearer " ++ tok2) (some "5")).1 =
      ⟨400, .insufficient 1 5⟩ := by
  rw [consume_one_of_two s a1 a2 t1 t2 tok hacc hmet hroom hid1 hid2 hne hsame,
    addAccounts_two_fresh s a1 a2 t1 hacc hmet hroom hid1 hid2 hne]
  refine ⟨⟨_, rfl, rfl, ?_, _, rfl, rfl, rfl, rfl⟩, rfl, ?_⟩
  · simp only
    omega
  · rw [getAccounts_insufficient _ t3 tok2 (some "5") 5 (by decide) (by simp)]
    rfl

/-- C7 (witness): the scenario on a fresh store with two concrete payloads. -/
theorem scenario_add_consume_overdraw_witness :
    (getAccounts
      (getAccounts (addAccounts ⟨"hunter2", emptyDB⟩ 100
          (.ok [⟨0, "refresh-1", "client-a", "secret-1"⟩,
                ⟨0, "refresh-2", "client-b", "secret-2"⟩])).2 200
        ("Bearer " ++ "hunter2") (some "1")).2 300 ("Bearer " ++ "anything") (some "5")).1 =
      ⟨400, .insufficient 1 5⟩ :=
  (scenario_add_consume_overdraw ⟨"hunter2", emptyDB⟩ ⟨0, "refresh-1", "client-a", "secret-1"⟩
    ⟨0, "refresh-2", "client-b", "secret-2"⟩ 100 200 300 "hunter2" "anything"
    (by decide) (by decide) (by decide) (by decide) (by decide) (by decide) (by decide)
    (by decide)).2.2

/-! ## The invariant along a run -/

/-- In a table whose hours grow strictly, a row whose hour bounds every hour
is the last one. -/
theorem getLast_of_hour_max {l : List Metric} (hs : (l.map Metric.Hour).Pairwise (· < ·))
    {hm : Metric} (hmem : hm ∈ l) (hmax : ∀ x ∈ l, x.Hour ≤ hm.Hour) :
    l.getLast? = some hm := by
  cases hl : l.getLast? with
  | none =>
    rw [List.getLast?_eq_none_iff] at hl
    rw [hl] at hmem
    simp at hmem
  | some x =>
    obtain ⟨ys, rfl⟩ := List.getLast?_eq_some_iff.mp hl
    simp only [List.mem_append, List.mem_singleton] at hmem
    rcases hmem with hy | rfl
    · exfalso
      simp only [List.map_append, List.map_cons, List.map_nil, List.pairwise_append] at hs
      have h1 := hs.2.2 hm.Hour (List.mem_map_of_mem _ hy) x.Hour (by simp)
      have h2 := hmax x (by simp)
      omega
    · rfl

/-- In a table sorted by key, a row whose key bounds every key is the last one. -/
theorem getLast_of_id_max {l : List Metric} (hs : (l.map Metric.ID).Pairwise (· < ·))
    {m : Metric} (hmem : m ∈ l) (hmax : ∀ x ∈ l, x.ID ≤ m.ID) :
    l.getLast? = some m := by
  cases hl : l.getLast? with
  | none =>
    rw [List.getLast?_eq_none_iff] at hl
    rw [hl] at hmem
    simp at hmem
  | some x =>
    obtain ⟨ys, rfl⟩ := List.getLast?_eq_some_iff.mp hl
    simp only [List.mem_append, List.mem_singleton] at hmem
    rcases hmem with hy | rfl
    · exfalso
      simp only [List.map_append, List.map_cons, List.map_nil, List.pairwise_append] at hs
      have h1 := hs.2.2 m.ID (List.mem_map_of_mem _ hy) x.ID (by simp)
      have h2 := hmax x (by simp)
      omega
    · rfl

theorem lastMetric_of_getLast {db : DB} {m : Metric} (h : db.metrics.getLast? = some m) :
    lastMetric db = m := by
  unfold lastMetric
  rw [h]

theorem lastMetric_of_nil {db : DB} (h : db.metrics = []) : lastMetric db = zeroMetric := by
  unfold lastMetric
  rw [h]
  rfl

/-- Update in place along a run: the bucket row found is the last row, and the
value written takes its place. -/
theorem run_save (db : DB) (h h2 : Nat) (hm m : Metric) (hwf : db.WF)
    (hs : (db.metrics.map Metric.Hour).Pairwise (· < ·))
    (hle : ∀ x ∈ db.metrics, x.Hour ≤ h) (hh : h ≤ h2)
    (hfind : hourMetric db h2 = some hm) (hid : m.ID = hm.ID) (hhour : m.Hour = hm.Hour) :
    (saveMetric db m).WF ∧
    ((saveMetric db m).metrics.map Metric.Hour).Pairwise (· < ·) ∧
    (∀ x ∈ (saveMetric db m).metrics, x.Hour ≤ h2) ∧
    db.metrics.getLast? = some hm ∧
    (saveMetric db m).metrics.getLast? = some m := by
  obtain ⟨hmem, hhm⟩ := hourMetric_some hfind
  obtain ⟨_, hcol, _⟩ := saveMetric_columns db hm m hwf hmem hid hhour
  have hpos : 0 < m.ID := by
    have := (hwf.2.2.2.2 hm hmem).1
    omega
  have hlast : db.metrics.getLast? = some hm :=
    getLast_of_hour_max hs hmem (fun x hx => by have := hle x hx; omega)
  refine ⟨saveMetric_wf db hm m hwf hmem hid hhour, by rw [hcol]; exact hs, ?_, hlast, ?_⟩
  · intro x hx
    rcases saveMetric_mem db m hpos x hx with rfl | ⟨hx2, _⟩
    · omega
    · have := hle x hx2
      omega
  · rw [saveMetric_eq db m hpos]
    simp only [List.getLast?_map, hlast, Option.map_some', if_pos hid.symm]

/-- Creation along a run: the new row goes last, with an hour above all others. -/
theorem run_create (db : DB) (h h2 : Nat) (m : Metric) (hwf : db.WF)
    (hs : (db.metrics.map Metric.Hour).Pairwise (· < ·))
    (hle : ∀ x ∈ db.metrics, x.Hour ≤ h) (hh : h ≤ h2)
    (hfind : hourMetric db h2 = none) (hhour : m.Hour = h2) :
    (createMetric db m).WF ∧
    ((createMetric db m).metrics.map Metric.Hour).Pairwise (· < ·) ∧
    (∀ x ∈ (createMetric db m).metrics, x.Hour ≤ h2) ∧
    (createMetric db m).metrics.getLast? = some { m with ID := db.metricSeq + 1 } := by
  have hnone := hourMetric_none hfind
  refine ⟨createMetric_wf db m hwf, ?_, ?_, ?_⟩
  · simp only [createMetric, List.map_append, List.map_cons, List.map_nil]
    rw [List.pairwise_append]
    refine ⟨hs, List.pairwise_singleton _ _, ?_⟩
    intro a ha b hb
    simp only [List.mem_singleton] at hb
    simp only [List.mem_map] at ha
    obtain ⟨r, hr, rfl⟩ := ha
    have h1 := hle r hr
    have h2 := hnone r hr
    omega
  · intro x hx
    simp only [createMetric, List.mem_append, List.mem_singleton] at hx
    rcases hx with hx | rfl
    · have := hle x hx
      omega
    · simp only
      omega
  · simp only [createMetric, List.getLast?_concat]

theorem runInv_save (db : DB) (h h2 : Nat) (B : Int) (hm m : Metric) (hwf : db.WF)
    (hs : (db.metrics.map Metric.Hour).Pairwise (· < ·))
    (hle : ∀ x ∈ db.metrics, x.Hour ≤ h) (hh : h ≤ h2)
    (hfind : hourMetric db h2 = some hm) (hid : m.ID = hm.ID) (hhour : m.Hour = hm.Hour)
    (hv : m.CurrentCount = (db.accounts.length : Int) ∧
      m.TotalCount - m.UsedCount = (db.accounts.length : Int) ∧
      0 ≤ m.UsedCount ∧ m.TotalCount ≤ B) :
    RunInv (saveMetric db m) h2 B := by
  obtain ⟨r1, r2, r3, _, r5⟩ := run_save db h h2 hm m hwf hs hle hh hfind hid hhour
  refine ⟨r1, r2, r3, ?_, ?_⟩
  · intro hnil
    rw [hnil] at r5
    simp at r5
  · intro x hx
    rw [r5] at hx
    cases hx
    rw [(saveMetric_accounts db m).1]
    exact hv

theorem runInv_create (db : DB) (h h2 : Nat) (B : Int) (m : Metric) (hwf : db.WF)
    (hs : (db.metrics.map Metric.Hour).Pairwise (· < ·))
    (hle : ∀ x ∈ db.metrics, x.Hour ≤ h) (hh : h ≤ h2)
    (hfind : hourMetric db h2 = none) (hhour : m.Hour = h2)
    (hv : m.CurrentCount = (db.accounts.length : Int) ∧
      m.TotalCount - m.UsedCount = (db.accounts.length : Int) ∧
      0 ≤ m.UsedCount ∧ m.TotalCount ≤ B) :
    RunInv (createMetric db m) h2 B := by
  obtain ⟨r1, r2, r3, r4⟩ := run_create db h h2 m hwf hs hle hh hfind hhour
  refine ⟨r1, r2, r3, ?_, ?_⟩
  · intro hnil
    rw [hnil] at r4
    simp at r4
  · intro x hx
    rw [r4] at hx
    cases hx
    rw [(createMetric_accounts db m).1]
    exact hv

theorem runInv_mono {db : DB} {h h2 : Nat} {B B2 : Int} (hinv : RunInv db h B)
    (hh : h ≤ h2) (hB : B ≤ B2) : RunInv db h2 B2 := by
  obtain ⟨i1, i2, i3, i4, i5⟩ := hinv
  refine ⟨i1, i2, fun m hm => le_trans (i3 m hm) hh, i4, ?_⟩
  intro m hm
  obtain ⟨v1, v2, v3, v4⟩ := i5 m hm
  exact ⟨v1, v2, v3, le_trans v4 hB⟩

/-- A successful consume keeps the invariant. -/
theorem runInv_consume (s : Server) (now : Nat) (tok : String) (countQuery : Option String)
    (count : Int) (h : Nat) (B : Int) (hinv : RunInv s.db h B) (hh : h ≤ formatHour now)
    (hB : B < 9223372036854775808)
    (hparse : Atoi (countQuery.getD "0") = some count) (hpos : 0 < count)
    (hle : count ≤ (s.db.accounts.length : Int)) :
    RunInv (getAccounts s now ("Bearer " ++ tok) countQuery).2.db (formatHour now) B := by
  obtain ⟨i1, i2, i3, i4, i5⟩ := hinv
  rw [getAccounts_consume_eq s now tok countQuery count hparse hpos hle]
  obtain ⟨hh1, hl, hmet, hseq, hacc⟩ := consume_store s.db count.toNat i1
  have hwf1 := consume_delete_wf s.db count.toNat i1
  -- the pool is not empty, so there is a last row
  obtain ⟨l, hlast⟩ : ∃ l, s.db.metrics.getLast? = some l := by
    cases hg : s.db.metrics.getLast? with
    | some l => exact ⟨l, rfl⟩
    | none =>
      exfalso
      rw [List.getLast?_eq_none_iff] at hg
      have := i4 hg
      rw [this] at hle
      simp only [List.length_nil, Nat.cast_zero] at hle
      omega
  obtain ⟨v1, v2, v3, v4⟩ := i5 l hlast
  have hlm : lastMetric s.db = l := lastMetric_of_getLast hlast
  have hlen1 : ((s.db.accounts.drop count.toNat).length : Int) =
      (s.db.accounts.length : Int) - count := by
    rw [List.length_drop]
    omega
  have hru : InRange (l.UsedCount + count) := by
    unfold InRange
    omega
  have hused : wrapInt (l.UsedCount + count) = l.UsedCount + count := wrapInt_of_inRange hru
  simp only
  unfold recordConsume
  simp only [hl, hlm, countAccounts, hacc, hused]
  split
  · next hm hfind =>
    refine runInv_save _ h _ B hm _ hwf1 (by rw [hmet]; exact i2)
      (by rw [hmet]; exact i3) hh hfind ?_ ?_ ?_
    · rfl
    · rfl
    · simp only [hacc]
      refine ⟨trivial, ?_, ?_, v4⟩
      · omega
      · omega
  · next hfind =>
    refine runInv_create _ h _ B _ hwf1 (by rw [hmet]; exact i2)
      (by rw [hmet]; exact i3) hh hfind ?_ ?_
    · rfl
    · simp only [hacc]
      refine ⟨trivial, ?_, ?_, v4⟩
      · omega
      · omega

/-- A successful add keeps the invariant, with the bound raised by the number
of payloads. -/
theorem runInv_add (s : Server) (now : Nat) (payloads : List Account) (h : Nat) (B : Int)
    (hinv : RunInv s.db h B) (hh : h ≤ formatHour now) (h0 : 0 ≤ B)
    (hB : B + (payloads.length : Int) < 9223372036854775808) :
    RunInv (addAccounts s now (.ok payloads)).2.db (formatHour now)
      (B + (payloads.length : Int)) := by
  obtain ⟨i1, i2, i3, i4, i5⟩ := hinv
  rw [addAccounts_ok_eq]
  have hwf1 := addLoop_wf payloads s.db 0 i1
  obtain ⟨hmet, _⟩ := addLoop_metrics payloads s.db 0
  obtain ⟨a1, a2, a3⟩ := addLoop_added payloads s.db 0 (le_refl _) (by omega)
  -- the seed row balances, whether it is a stored row or the zero value
  have hseed : (lastMetric s.db).TotalCount - (lastMetric s.db).UsedCount =
        (s.db.accounts.length : Int) ∧
      0 ≤ (lastMetric s.db).UsedCount ∧ (lastMetric s.db).TotalCount ≤ B := by
    cases hg : s.db.metrics.getLast? with
    | some l =>
      rw [lastMetric_of_getLast hg]
      exact (i5 l hg).2
    | none =>
      rw [List.getLast?_eq_none_iff] at hg
      rw [lastMetric_of_nil hg, i4 hg]
      simp [zeroMetric, h0]
  obtain ⟨s1, s2, s3⟩ := hseed
  have hr : InRange ((lastMetric s.db).TotalCount + (addLoop s.db 0 payloads).2) := by
    unfold InRange
    omega
  have hw := wrapInt_of_inRange hr
  simp only [hw, countAccounts]
  split
  · next hm hfind =>
    obtain ⟨_, _, _, hl1, _⟩ := run_save _ h _ hm hm hwf1 (by rw [hmet]; exact i2)
      (by rw [hmet]; exact i3) hh hfind rfl rfl
    rw [hmet] at hl1
    have hlm := lastMetric_of_getLast hl1
    refine runInv_save _ h _ _ hm _ hwf1 (by rw [hmet]; exact i2)
      (by rw [hmet]; exact i3) hh hfind ?_ ?_ ?_
    · rfl
    · rfl
    · rw [hlm] at s1 s2 s3
      simp only [hlm]
      refine ⟨trivial, ?_, s2, ?_⟩
      · omega
      · omega
  · next hfind =>
    refine runInv_create _ h _ _ _ hwf1 (by rw [hmet]; exact i2)
      (by rw [hmet]; exact i3) hh hfind ?_ ?_
    · rfl
    · refine ⟨rfl, ?_, s2, ?_⟩
      · simp only
        omega
      · simp only
        omega

/-- Apart from a successful consume, `getAccounts` leaves the server as it is. -/
theorem getAccounts_state (s : Server) (now : Nat) (auth : String)
    (countQuery : Option String) :
    (getAccounts s now auth countQuery).2 = s ∨
    ∃ (tok : String) (count : Int), auth = "Bearer " ++ tok ∧
      Atoi (countQuery.getD "0") = some count ∧ 0 < count ∧
      count ≤ (s.db.accounts.length : Int) := by
  by_cases hg : ∃ tok : String, auth = "Bearer " ++ tok
  · obtain ⟨tok, rfl⟩ := hg
    cases hparse : Atoi (countQuery.getD "0") with
    | none =>
      left
      unfold getAccounts
      rw [if_neg (bearer_guard_accepts tok)]
      simp only [hparse]
    | some count =>
      by_cases hpos : 0 < count
      · by_cases hle : count ≤ (s.db.accounts.length : Int)
        · exact Or.inr ⟨tok, count, rfl, rfl, hpos, hle⟩
        · left
          rw [getAccounts_insufficient s now tok countQuery count hparse (by omega)]
      · left
        unfold getAccounts
        rw [if_neg (bearer_guard_accepts tok)]
        simp only [hparse]
        split_ifs <;> rfl
  · left
    rw [getAccounts_unauthorized s now auth countQuery hg]

/-- Every request keeps the invariant. -/
theorem runInv_handle (s : Server) (r : Request) (h : Nat) (B : Int)
    (hinv : RunInv s.db h B) (hh : h ≤ formatHour r.now) (h0 : 0 ≤ B)
    (hB : B + (r.payloads : Int) < 9223372036854775808) :
    RunInv (handle s r).2.db (formatHour r.now) (B + (r.payloads : Int)) := by
  cases r with
  | get now auth countQuery =>
    simp only [handle, Request.now, Request.payloads, Nat.cast_zero, add_zero] at hh hB ⊢
    rcases getAccounts_state s now auth countQuery with hsame | ⟨tok, count, rfl, hp, hpos, hle⟩
    · rw [hsame]
      exact runInv_mono hinv hh (le_refl _)
    · exact runInv_consume s now tok countQuery count h B hinv hh hB hp hpos hle
  | add now input =>
    cases input with
    | error e =>
      simp only [handle, Request.now, Request.payloads, Nat.cast_zero, add_zero,
        addAccounts] at hh ⊢
      exact runInv_mono hinv hh (le_refl _)
    | ok payloads =>
      simp only [handle, Request.now, Request.payloads] at hh hB ⊢
      exact runInv_add s now payloads h B hinv hh h0 hB

theorem run_cons (s : Server) (r : Request) (rs : List Request) :
    run s (r :: rs) = run (handle s r).2 rs := rfl

/-- The invariant holds at the end of every run whose hour keys never go
backwards and whose payloads fit a Go `int`. -/
theorem runInv_run (rs : List Request) :
    ∀ (s : Server) (h : Nat) (B : Int), RunInv s.db h B → 0 ≤ B →
      List.Chain (· ≤ ·) h (rs.map (fun r => formatHour r.now)) →
      B + (totalPayloads rs : Int) < 9223372036854775808 →
      ∃ (h2 : Nat) (B2 : Int), RunInv (run s rs).db h2 B2 := by
  induction rs with
  | nil => intro s h B hinv _ _ _; exact ⟨h, B, hinv⟩
  | cons r rest ih =>
    intro s h B hinv h0 hch hB
    simp only [List.map_cons, List.chain_cons] at hch
    simp only [totalPayloads, List.map_cons, List.sum_cons, Nat.cast_add] at hB
    rw [run_cons]
    have hn : (0 : Int) ≤ ((List.map Request.payloads rest).sum : Int) := Int.natCast_nonneg _
    refine ih (handle s r).2 (formatHour r.now) (B + (r.payloads : Int))
      (runInv_handle s r h B hinv hch.1 h0 (by omega)) (by omega) hch.2 ?_
    simp only [totalPayloads]
    omega

theorem runInv_of_empty (db : DB) (hacc : db.accounts = []) (hmet : db.metrics = []) :
    RunInv db 0 0 := by
  refine ⟨?_, by simp [hmet], by simp [hmet], fun _ => hacc, ?_⟩
  · unfold DB.WF
    simp [hacc, hmet]
  · intro m hm
    simp [hmet] at hm

theorem hoursMonotone_take {rs : List Request} (h : HoursMonotone rs) (k : Nat) :
    List.Chain (· ≤ ·) 0 ((rs.take k).map (fun r => formatHour r.now)) := by
  unfold HoursMonotone at h
  have h2 : List.Chain' (· ≤ ·) ((rs.take k).map (fun r => formatHour r.now)) :=
    List.Pairwise.chain' (h.sublist ((List.take_sublist k rs).map _))
  cases hl : (rs.take k).map (fun r => formatHour r.now) with
  | nil => exact List.Chain.nil
  | cons a l =>
    rw [hl] at h2
    exact List.Chain.cons (Nat.zero_le a) h2

theorem totalPayloads_take_le (rs : List Request) (k : Nat) :
    totalPayloads (rs.take k) ≤ totalPayloads rs := by
  have h : totalPayloads rs = totalPayloads (rs.take k) + totalPayloads (rs.drop k) := by
    unfold totalPayloads
    rw [← List.sum_append, ← List.map_append, List.take_append_drop]
  omega

/-! ## Claim on the running balance -/

/-- C10: start from a store with an empty pool and an empty `Metric` table and
serve any series of `getAccounts` and `addAccounts` requests whose hour keys
never go backwards (and whose payloads number fewer than 2^63, so that no Go
`int` overflows).  After each request, that is after the first `k` requests
for every `k`, the `Metric` row with the greatest id, when there is one, has
`current_count = total_count - used_count = ` the number of accounts in the
pool. -/
theorem run_last_metric_balanced (s : Server) (rs : List Request) (k : Nat)
    (hacc : s.db.accounts = []) (hmet : s.db.metrics = [])
    (hmono : HoursMonotone rs) (hfit : totalPayloads rs < 9223372036854775808) :
    ∀ m ∈ (run s (rs.take k)).db.metrics,
      (∀ x ∈ (run s (rs.take k)).db.metrics, x.ID ≤ m.ID) →
      m.CurrentCount = ((run s (rs.take k)).db.accounts.length : Int) ∧
      m.TotalCount - m.UsedCount = ((run s (rs.take k)).db.accounts.length : Int) := by
  intro m hm hmax
  have hle := totalPayloads_take_le rs k
  obtain ⟨h2, B2, hinv⟩ := runInv_run (rs.take k) s 0 0 (runInv_of_empty s.db hacc hmet)
    (le_refl _) (hoursMonotone_take hmono k) (by omega)
  obtain ⟨i1, _, _, _, i5⟩ := hinv
  obtain ⟨v1, v2, _, _⟩ := i5 m (getLast_of_id_max i1.2.2.2.1 hm hmax)
  exact ⟨v1, v2⟩

/-- C10 (witness): the first three requests of `sampleRun` on a fresh store. -/
theorem run_last_metric_balanced_witness :
    HoursMonotone sampleRun ∧ totalPayloads sampleRun = 3 ∧
    (run ⟨"hunter2", emptyDB⟩ (sampleRun.take 3)).db.metrics.length = 2 ∧
    (∀ m ∈ (run ⟨"hunter2", emptyDB⟩ (sampleRun.take 3)).db.metrics,
      (∀ x ∈ (run ⟨"hunter2", emptyDB⟩ (sampleRun.take 3)).db.metrics, x.ID ≤ m.ID) →
      m.CurrentCount =
        ((run ⟨"hunter2", emptyDB⟩ (sampleRun.take 3)).db.accounts.length : Int) ∧
      m.TotalCount - m.UsedCount =
        ((run ⟨"hunter2", emptyDB⟩ (sampleRun.take 3)).db.accounts.length : Int)) :=
  ⟨by decide, by decide, by decide,
   run_last_metric_balanced ⟨"hunter2", emptyDB⟩ sampleRun 3 (by decide) (by decide)
     (by decide) (by decide)⟩

end AccountHub
